import Mathlib

/-!
Shallow embedding of `library/aesni.c` (mbed TLS AES-NI backend) and proofs
about it.  The C file drives five components through x86 AES-NI / PCLMULQDQ
instructions:

* `mbedtls_aesni_has_support`  - cached CPU capability probe;
* `mbedtls_aesni_crypt_ecb`    - one-block AES encryption / decryption;
* `mbedtls_aesni_setkey_enc`   - forward key expansion (128/192/256 bits);
* `mbedtls_aesni_inverse_key`  - decryption key schedule derivation;
* `mbedtls_aesni_gcm_mult`     - GF(2^128) multiplication for GHASH.

Bytes are modelled as `Nat` (with explicit `< 256` bounds where needed), a
16-byte block as a structure of sixteen bytes, 32-bit schedule words as a
structure of four bytes, and the 128-bit XMM registers used by the carry-less
multiplication as `Nat` values below `2 ^ 128`.  The hardware instructions
(AESENC, AESDEC, AESENCLAST, AESDECLAST, AESIMC, AESKEYGENASSIST, PCLMULQDQ)
are modelled by their architectural definitions from FIPS-197 and the Intel
instruction set reference, and each C function is transcribed over those
models.
-/

set_option maxRecDepth 10000

namespace Aesni

/-- Forward AES S-box (FIPS-197 Fig. 7), the byte substitution performed by
the AESENC, AESENCLAST and AESKEYGENASSIST instruction models. -/
def sboxTable : List Nat :=
  [0x63, 0x7c, 0x77, 0x7b, 0xf2, 0x6b, 0x6f, 0xc5, 0x30, 0x01, 0x67, 0x2b, 0xfe, 0xd7, 0xab, 0x76,
   0xca, 0x82, 0xc9, 0x7d, 0xfa, 0x59, 0x47, 0xf0, 0xad, 0xd4, 0xa2, 0xaf, 0x9c, 0xa4, 0x72, 0xc0,
   0xb7, 0xfd, 0x93, 0x26, 0x36, 0x3f, 0xf7, 0xcc, 0x34, 0xa5, 0xe5, 0xf1, 0x71, 0xd8, 0x31, 0x15,
   0x04, 0xc7, 0x23, 0xc3, 0x18, 0x96, 0x05, 0x9a, 0x07, 0x12, 0x80, 0xe2, 0xeb, 0x27, 0xb2, 0x75,
   0x09, 0x83, 0x2c, 0x1a, 0x1b, 0x6e, 0x5a, 0xa0, 0x52, 0x3b, 0xd6, 0xb3, 0x29, 0xe3, 0x2f, 0x84,
   0x53, 0xd1, 0x00, 0xed, 0x20, 0xfc, 0xb1, 0x5b, 0x6a, 0xcb, 0xbe, 0x39, 0x4a, 0x4c, 0x58, 0xcf,
   0xd0, 0xef, 0xaa, 0xfb, 0x43, 0x4d, 0x33, 0x85, 0x45, 0xf9, 0x02, 0x7f, 0x50, 0x3c, 0x9f, 0xa8,
   0x51, 0xa3, 0x40, 0x8f, 0x92, 0x9d, 0x38, 0xf5, 0xbc, 0xb6, 0xda, 0x21, 0x10, 0xff, 0xf3, 0xd2,
   0xcd, 0x0c, 0x13, 0xec, 0x5f, 0x97, 0x44, 0x17, 0xc4, 0xa7, 0x7e, 0x3d, 0x64, 0x5d, 0x19, 0x73,
   0x60, 0x81, 0x4f, 0xdc, 0x22, 0x2a, 0x90, 0x88, 0x46, 0xee, 0xb8, 0x14, 0xde, 0x5e, 0x0b, 0xdb,
   0xe0, 0x32, 0x3a, 0x0a, 0x49, 0x06, 0x24, 0x5c, 0xc2, 0xd3, 0xac, 0x62, 0x91, 0x95, 0xe4, 0x79,
   0xe7, 0xc8, 0x37, 0x6d, 0x8d, 0xd5, 0x4e, 0xa9, 0x6c, 0x56, 0xf4, 0xea, 0x65, 0x7a, 0xae, 0x08,
   0xba, 0x78, 0x25, 0x2e, 0x1c, 0xa6, 0xb4, 0xc6, 0xe8, 0xdd, 0x74, 0x1f, 0x4b, 0xbd, 0x8b, 0x8a,
   0x70, 0x3e, 0xb5, 0x66, 0x48, 0x03, 0xf6, 0x0e, 0x61, 0x35, 0x57, 0xb9, 0x86, 0xc1, 0x1d, 0x9e,
   0xe1, 0xf8, 0x98, 0x11, 0x69, 0xd9, 0x8e, 0x94, 0x9b, 0x1e, 0x87, 0xe9, 0xce, 0x55, 0x28, 0xdf,
   0x8c, 0xa1, 0x89, 0x0d, 0xbf, 0xe6, 0x42, 0x68, 0x41, 0x99, 0x2d, 0x0f, 0xb0, 0x54, 0xbb, 0x16]

/-- Inverse AES S-box (FIPS-197 Fig. 14), used by the AESDEC and AESDECLAST
instruction models. -/
def invSboxTable : List Nat :=
  [0x52, 0x09, 0x6a, 0xd5, 0x30, 0x36, 0xa5, 0x38, 0xbf, 0x40, 0xa3, 0x9e, 0x81, 0xf3, 0xd7, 0xfb,
   0x7c, 0xe3, 0x39, 0x82, 0x9b, 0x2f, 0xff, 0x87, 0x34, 0x8e, 0x43, 0x44, 0xc4, 0xde, 0xe9, 0xcb,
   0x54, 0x7b, 0x94, 0x32, 0xa6, 0xc2, 0x23, 0x3d, 0xee, 0x4c, 0x95, 0x0b, 0x42, 0xfa, 0xc3, 0x4e,
   0x08, 0x2e, 0xa1, 0x66, 0x28, 0xd9, 0x24, 0xb2, 0x76, 0x5b, 0xa2, 0x49, 0x6d, 0x8b, 0xd1, 0x25,
   0x72, 0xf8, 0xf6, 0x64, 0x86, 0x68, 0x98, 0x16, 0xd4, 0xa4, 0x5c, 0xcc, 0x5d, 0x65, 0xb6, 0x92,
   0x6c, 0x70, 0x48, 0x50, 0xfd, 0xed, 0xb9, 0xda, 0x5e, 0x15, 0x46, 0x57, 0xa7, 0x8d, 0x9d, 0x84,
   0x90, 0xd8, 0xab, 0x00, 0x8c, 0xbc, 0xd3, 0x0a, 0xf7, 0xe4, 0x58, 0x05, 0xb8, 0xb3, 0x45, 0x06,
   0xd0, 0x2c, 0x1e, 0x8f, 0xca, 0x3f, 0x0f, 0x02, 0xc1, 0xaf, 0xbd, 0x03, 0x01, 0x13, 0x8a, 0x6b,
   0x3a, 0x91, 0x11, 0x41, 0x4f, 0x67, 0xdc, 0xea, 0x97, 0xf2, 0xcf, 0xce, 0xf0, 0xb4, 0xe6, 0x73,
   0x96, 0xac, 0x74, 0x22, 0xe7, 0xad, 0x35, 0x85, 0xe2, 0xf9, 0x37, 0xe8, 0x1c, 0x75, 0xdf, 0x6e,
   0x47, 0xf1, 0x1a, 0x71, 0x1d, 0x29, 0xc5, 0x89, 0x6f, 0xb7, 0x62, 0x0e, 0xaa, 0x18, 0xbe, 0x1b,
   0xfc, 0x56, 0x3e, 0x4b, 0xc6, 0xd2, 0x79, 0x20, 0x9a, 0xdb, 0xc0, 0xfe, 0x78, 0xcd, 0x5a, 0xf4,
   0x1f, 0xdd, 0xa8, 0x33, 0x88, 0x07, 0xc7, 0x31, 0xb1, 0x12, 0x10, 0x59, 0x27, 0x80, 0xec, 0x5f,
   0x60, 0x51, 0x7f, 0xa9, 0x19, 0xb5, 0x4a, 0x0d, 0x2d, 0xe5, 0x7a, 0x9f, 0x93, 0xc9, 0x9c, 0xef,
   0xa0, 0xe0, 0x3b, 0x4d, 0xae, 0x2a, 0xf5, 0xb0, 0xc8, 0xeb, 0xbb, 0x3c, 0x83, 0x53, 0x99, 0x61,
   0x17, 0x2b, 0x04, 0x7e, 0xba, 0x77, 0xd6, 0x26, 0xe1, 0x69, 0x14, 0x63, 0x55, 0x21, 0x0c, 0x7d]

/-- Byte substitution through the forward S-box. -/
def sbox (b : Nat) : Nat := sboxTable.getD b 0

/-- Byte substitution through the inverse S-box. -/
def invSbox (b : Nat) : Nat := invSboxTable.getD b 0

/-- Doubling in GF(2^8) under the AES reduction polynomial `0x11B`. -/
def xtime (b : Nat) : Nat := (b <<< 1) ^^^ (if b.testBit 7 then 0x11B else 0)

/-- Multiplication by 2 in GF(2^8). -/
def mul2 (b : Nat) : Nat := xtime b

/-- Multiplication by 3 in GF(2^8). -/
def mul3 (b : Nat) : Nat := xtime b ^^^ b

/-- Multiplication by 9 in GF(2^8). -/
def mul9 (b : Nat) : Nat := xtime (xtime (xtime b)) ^^^ b

/-- Multiplication by 11 in GF(2^8). -/
def mul11 (b : Nat) : Nat := xtime (xtime (xtime b)) ^^^ xtime b ^^^ b

/-- Multiplication by 13 in GF(2^8). -/
def mul13 (b : Nat) : Nat := xtime (xtime (xtime b)) ^^^ xtime (xtime b) ^^^ b

/-- Multiplication by 14 in GF(2^8). -/
def mul14 (b : Nat) : Nat := xtime (xtime (xtime b)) ^^^ xtime (xtime b) ^^^ xtime b

/-- One 16-byte AES block in memory order: `b0` is the byte at the lowest
address.  In FIPS-197 terms, byte `4*c + r` is state entry `s[r,c]`. -/
@[ext]
structure Block where
  b0 : Nat
  b1 : Nat
  b2 : Nat
  b3 : Nat
  b4 : Nat
  b5 : Nat
  b6 : Nat
  b7 : Nat
  b8 : Nat
  b9 : Nat
  b10 : Nat
  b11 : Nat
  b12 : Nat
  b13 : Nat
  b14 : Nat
  b15 : Nat
  deriving DecidableEq, Repr

/-- The all-zero block, used as the out-of-range default when reading a round
key buffer. -/
def zeroBlock : Block := ⟨0, 0, 0, 0, 0, 0, 0, 0, 0, 0, 0, 0, 0, 0, 0, 0⟩

/-- Bytewise XOR of two blocks (the PXOR instruction on AES state). -/
def xorB (x y : Block) : Block :=
  ⟨x.b0 ^^^ y.b0, x.b1 ^^^ y.b1, x.b2 ^^^ y.b2, x.b3 ^^^ y.b3,
   x.b4 ^^^ y.b4, x.b5 ^^^ y.b5, x.b6 ^^^ y.b6, x.b7 ^^^ y.b7,
   x.b8 ^^^ y.b8, x.b9 ^^^ y.b9, x.b10 ^^^ y.b10, x.b11 ^^^ y.b11,
   x.b12 ^^^ y.b12, x.b13 ^^^ y.b13, x.b14 ^^^ y.b14, x.b15 ^^^ y.b15⟩

/-- SubBytes: the forward S-box applied to every byte of the state. -/
def subBytes (s : Block) : Block :=
  ⟨sbox s.b0, sbox s.b1, sbox s.b2, sbox s.b3,
   sbox s.b4, sbox s.b5, sbox s.b6, sbox s.b7,
   sbox s.b8, sbox s.b9, sbox s.b10, sbox s.b11,
   sbox s.b12, sbox s.b13, sbox s.b14, sbox s.b15⟩

/-- InvSubBytes: the inverse S-box applied to every byte of the state. -/
def invSubBytes (s : Block) : Block :=
  ⟨invSbox s.b0, invSbox s.b1, invSbox s.b2, invSbox s.b3,
   invSbox s.b4, invSbox s.b5, invSbox s.b6, invSbox s.b7,
   invSbox s.b8, invSbox s.b9, invSbox s.b10, invSbox s.b11,
   invSbox s.b12, invSbox s.b13, invSbox s.b14, invSbox s.b15⟩

/-- ShiftRows: row `r` of the state is rotated left by `r` positions;
byte `4*c + r` of the result is byte `4*((c+r) % 4) + r` of the input. -/
def shiftRows (s : Block) : Block :=
  ⟨s.b0, s.b5, s.b10, s.b15,
   s.b4, s.b9, s.b14, s.b3,
   s.b8, s.b13, s.b2, s.b7,
   s.b12, s.b1, s.b6, s.b11⟩

/-- InvShiftRows: row `r` of the state is rotated right by `r` positions. -/
def invShiftRows (s : Block) : Block :=
  ⟨s.b0, s.b13, s.b10, s.b7,
   s.b4, s.b1, s.b14, s.b11,
   s.b8, s.b5, s.b2, s.b15,
   s.b12, s.b9, s.b6, s.b3⟩

/-- MixColumns: each 4-byte column is multiplied by the fixed AES matrix
`[2 3 1 1 / 1 2 3 1 / 1 1 2 3 / 3 1 1 2]` over GF(2^8). -/
def mixColumns (s : Block) : Block :=
  ⟨mul2 s.b0 ^^^ mul3 s.b1 ^^^ s.b2 ^^^ s.b3,
   s.b0 ^^^ mul2 s.b1 ^^^ mul3 s.b2 ^^^ s.b3,
   s.b0 ^^^ s.b1 ^^^ mul2 s.b2 ^^^ mul3 s.b3,
   mul3 s.b0 ^^^ s.b1 ^^^ s.b2 ^^^ mul2 s.b3,
   mul2 s.b4 ^^^ mul3 s.b5 ^^^ s.b6 ^^^ s.b7,
   s.b4 ^^^ mul2 s.b5 ^^^ mul3 s.b6 ^^^ s.b7,
   s.b4 ^^^ s.b5 ^^^ mul2 s.b6 ^^^ mul3 s.b7,
   mul3 s.b4 ^^^ s.b5 ^^^ s.b6 ^^^ mul2 s.b7,
   mul2 s.b8 ^^^ mul3 s.b9 ^^^ s.b10 ^^^ s.b11,
   s.b8 ^^^ mul2 s.b9 ^^^ mul3 s.b10 ^^^ s.b11,
   s.b8 ^^^ s.b9 ^^^ mul2 s.b10 ^^^ mul3 s.b11,
   mul3 s.b8 ^^^ s.b9 ^^^ s.b10 ^^^ mul2 s.b11,
   mul2 s.b12 ^^^ mul3 s.b13 ^^^ s.b14 ^^^ s.b15,
   s.b12 ^^^ mul2 s.b13 ^^^ mul3 s.b14 ^^^ s.b15,
   s.b12 ^^^ s.b13 ^^^ mul2 s.b14 ^^^ mul3 s.b15,
   mul3 s.b12 ^^^ s.b13 ^^^ s.b14 ^^^ mul2 s.b15⟩

/-- InvMixColumns: each 4-byte column is multiplied by the inverse AES matrix
`[14 11 13 9 / 9 14 11 13 / 13 9 14 11 / 11 13 9 14]` over GF(2^8).  This is
also the semantics of the AESIMC instruction. -/
def invMixColumns (s : Block) : Block :=
  ⟨mul14 s.b0 ^^^ mul11 s.b1 ^^^ mul13 s.b2 ^^^ mul9 s.b3,
   mul9 s.b0 ^^^ mul14 s.b1 ^^^ mul11 s.b2 ^^^ mul13 s.b3,
   mul13 s.b0 ^^^ mul9 s.b1 ^^^ mul14 s.b2 ^^^ mul11 s.b3,
   mul11 s.b0 ^^^ mul13 s.b1 ^^^ mul9 s.b2 ^^^ mul14 s.b3,
   mul14 s.b4 ^^^ mul11 s.b5 ^^^ mul13 s.b6 ^^^ mul9 s.b7,
   mul9 s.b4 ^^^ mul14 s.b5 ^^^ mul11 s.b6 ^^^ mul13 s.b7,
   mul13 s.b4 ^^^ mul9 s.b5 ^^^ mul14 s.b6 ^^^ mul11 s.b7,
   mul11 s.b4 ^^^ mul13 s.b5 ^^^ mul9 s.b6 ^^^ mul14 s.b7,
   mul14 s.b8 ^^^ mul11 s.b9 ^^^ mul13 s.b10 ^^^ mul9 s.b11,
   mul9 s.b8 ^^^ mul14 s.b9 ^^^ mul11 s.b10 ^^^ mul13 s.b11,
   mul13 s.b8 ^^^ mul9 s.b9 ^^^ mul14 s.b10 ^^^ mul11 s.b11,
   mul11 s.b8 ^^^ mul13 s.b9 ^^^ mul9 s.b10 ^^^ mul14 s.b11,
   mul14 s.b12 ^^^ mul11 s.b13 ^^^ mul13 s.b14 ^^^ mul9 s.b15,
   mul9 s.b12 ^^^ mul14 s.b13 ^^^ mul11 s.b14 ^^^ mul13 s.b15,
   mul13 s.b12 ^^^ mul9 s.b13 ^^^ mul14 s.b14 ^^^ mul11 s.b15,
   mul11 s.b12 ^^^ mul13 s.b13 ^^^ mul9 s.b14 ^^^ mul14 s.b15⟩

/-- AESENC: one full encryption round
(ShiftRows, SubBytes, MixColumns, AddRoundKey). -/
def aesenc (s k : Block) : Block := xorB (mixColumns (subBytes (shiftRows s))) k

/-- AESENCLAST: the final encryption round (no MixColumns). -/
def aesenclast (s k : Block) : Block := xorB (subBytes (shiftRows s)) k

/-- AESDEC: one full decryption round
(InvShiftRows, InvSubBytes, InvMixColumns, AddRoundKey). -/
def aesdec (s k : Block) : Block := xorB (invMixColumns (invSubBytes (invShiftRows s))) k

/-- AESDECLAST: the final decryption round (no InvMixColumns). -/
def aesdeclast (s k : Block) : Block := xorB (invSubBytes (invShiftRows s)) k

/-- AESIMC: InvMixColumns of a round key, as used by
`mbedtls_aesni_inverse_key`. -/
def aesimc (s : Block) : Block := invMixColumns s

/-- Direction constant `MBEDTLS_AES_ENCRYPT` from the mbed TLS headers. -/
def MBEDTLS_AES_ENCRYPT : Nat := 1

/-- Direction constant `MBEDTLS_AES_DECRYPT` from the mbed TLS headers. -/
def MBEDTLS_AES_DECRYPT : Nat := 0

/-- Round loop of `mbedtls_aesni_crypt_ecb`: a do-while loop that applies the
round instruction `f` with the round key at index `idx`, then decrements the
counter and continues while it is nonzero.  In the C source the counter
enters as `nr - 1` and the key pointer advances by one block per round. -/
def ecbLoop (f : Block → Block → Block) (rk : Nat → Block) : Nat → Nat → Block → Block
  | 0, idx, s => f s (rk idx)
  | 1, idx, s => f s (rk idx)
  | n + 2, idx, s => ecbLoop f rk (n + 1) (idx + 1) (f s (rk idx))

/-- Transcription of `mbedtls_aesni_crypt_ecb`: XOR with round key 0, then
`nr - 1` full rounds with round keys 1 to `nr - 1`, then the last-round
instruction with round key `nr`.  Mode 0 decrypts (AESDEC / AESDECLAST), any
other mode encrypts (AESENC / AESENCLAST).  The round keys are read from the
schedule buffer `rk` one block at a time. -/
def mbedtls_aesni_crypt_ecb (nr : Nat) (rk : Nat → Block) (mode : Nat) (input : Block) : Block :=
  if mode = 0 then aesdeclast (ecbLoop aesdec rk (nr - 1) 1 (xorB input (rk 0))) (rk nr)
  else aesenclast (ecbLoop aesenc rk (nr - 1) 1 (xorB input (rk 0))) (rk nr)

/-- Transcription of `mbedtls_aesni_inverse_key`'s middle loop: walking the
forward schedule from block index `j` down to block index 1, emitting the
AESIMC transform of each forward round key, and finally copying forward round
key 0 unchanged. -/
def invKeyLoop (fwd : Nat → Block) : Nat → List Block
  | 0 => [fwd 0]
  | j + 1 => aesimc (fwd (j + 1)) :: invKeyLoop fwd j

/-- Transcription of `mbedtls_aesni_inverse_key`: the decryption round key
buffer starts with forward round key `nr` copied unchanged, continues with
the AESIMC transform of forward round keys `nr - 1` down to `1`, and ends
with forward round key 0 copied unchanged. -/
def mbedtls_aesni_inverse_key (fwd : Nat → Block) (nr : Nat) : List Block :=
  fwd nr :: invKeyLoop fwd (nr - 1)

/-- One 32-bit key schedule word in memory order: `x0` is the byte at the
lowest address, i.e. the least significant byte of the little-endian dword. -/
@[ext]
structure Word where
  x0 : Nat
  x1 : Nat
  x2 : Nat
  x3 : Nat
  deriving DecidableEq, Repr

/-- The all-zero schedule word, the out-of-range default for buffer reads. -/
def zeroWord : Word := ⟨0, 0, 0, 0⟩

/-- Bytewise XOR of schedule words. -/
def xorW (x y : Word) : Word := ⟨x.x0 ^^^ y.x0, x.x1 ^^^ y.x1, x.x2 ^^^ y.x2, x.x3 ^^^ y.x3⟩

/-- SubWord: the forward S-box applied to each byte of a schedule word; this
is dword 2 of an AESKEYGENASSIST result. -/
def subWord (w : Word) : Word := ⟨sbox w.x0, sbox w.x1, sbox w.x2, sbox w.x3⟩

/-- RotWord of SubWord XOR the round constant: dword 3 (and dword 1) of an
AESKEYGENASSIST result, the `X = rot( sub( r ) ) ^ RCON` value of the key
expansion comments in the source. -/
def rotSubRcon (w : Word) (rcon : Nat) : Word :=
  ⟨sbox w.x1 ^^^ rcon, sbox w.x2, sbox w.x3, sbox w.x0⟩

/-- Top (highest-address) schedule word of a block. -/
def topWord (b : Block) : Word := ⟨b.b12, b.b13, b.b14, b.b15⟩

/-- Low schedule word of a block. -/
def lowWord (b : Block) : Word := ⟨b.b0, b.b1, b.b2, b.b3⟩

/-- The four schedule words of a block, lowest address first. -/
def blockWords (b : Block) : List Word :=
  [⟨b.b0, b.b1, b.b2, b.b3⟩, ⟨b.b4, b.b5, b.b6, b.b7⟩,
   ⟨b.b8, b.b9, b.b10, b.b11⟩, ⟨b.b12, b.b13, b.b14, b.b15⟩]

/-- Assemble a block from four schedule words, lowest address first. -/
def wordsToBlock (w0 w1 w2 w3 : Word) : Block :=
  ⟨w0.x0, w0.x1, w0.x2, w0.x3, w1.x0, w1.x1, w1.x2, w1.x3,
   w2.x0, w2.x1, w2.x2, w2.x3, w3.x0, w3.x1, w3.x2, w3.x3⟩

/-- Read block number `i` from a schedule word buffer (16 bytes = 4 words per
block), reading zero outside the buffer. -/
def blockAt (ws : List Word) (i : Nat) : Block :=
  wordsToBlock (ws.getD (4 * i) zeroWord) (ws.getD (4 * i + 1) zeroWord)
    (ws.getD (4 * i + 2) zeroWord) (ws.getD (4 * i + 3) zeroWord)

/-- The `pslldq 4 / pxor` cascade shared by all three key expansion variants:
given the four words `r0:r1:r2:r3` of `b` and the assist value `x`, produce
the block whose word `i` is `x ^^^ r0 ^^^ ... ^^^ ri`. -/
def slide (b : Block) (x : Word) : Block :=
  let a0 := b.b0 ^^^ x.x0
  let a1 := b.b1 ^^^ x.x1
  let a2 := b.b2 ^^^ x.x2
  let a3 := b.b3 ^^^ x.x3
  let a4 := b.b4 ^^^ a0
  let a5 := b.b5 ^^^ a1
  let a6 := b.b6 ^^^ a2
  let a7 := b.b7 ^^^ a3
  let a8 := b.b8 ^^^ a4
  let a9 := b.b9 ^^^ a5
  let a10 := b.b10 ^^^ a6
  let a11 := b.b11 ^^^ a7
  ⟨a0, a1, a2, a3, a4, a5, a6, a7, a8, a9, a10, a11,
   b.b12 ^^^ a8, b.b13 ^^^ a9, b.b14 ^^^ a10, b.b15 ^^^ a11⟩

/-- Read schedule word number `i` of a raw key given as a byte list. -/
def keyWord (key : List Nat) (i : Nat) : Word :=
  ⟨key.getD (4 * i) 0, key.getD (4 * i + 1) 0, key.getD (4 * i + 2) 0, key.getD (4 * i + 3) 0⟩

/-- Read the 16-byte block starting at byte `16 * i` of a raw key byte list. -/
def keyBlock (key : List Nat) (i : Nat) : Block :=
  wordsToBlock (keyWord key (4 * i)) (keyWord key (4 * i + 1))
    (keyWord key (4 * i + 2)) (keyWord key (4 * i + 3))

/-- One step of the 128-bit key expansion: `AESKEYGENASSIST` on the previous
round key followed by the `1:` auxiliary routine of `aesni_setkey_enc_128`. -/
def step128 (b : Block) (rcon : Nat) : Block := slide b (rotSubRcon (topWord b) rcon)

/-- Store/step loop of `aesni_setkey_enc_128`: each round stores the current
round key then derives the next from it; the last round key is stored after
the final step. -/
def loop128 : Block → List Nat → List Word
  | b, [] => blockWords b
  | b, r :: rs => blockWords b ++ loop128 (step128 b r) rs

/-- Round constant bytes consumed by `aesni_setkey_enc_128`, in the order of
its AESKEYGENASSIST invocations. -/
def rcon128 : List Nat := [0x01, 0x02, 0x04, 0x08, 0x10, 0x20, 0x40, 0x80, 0x1B, 0x36]

/-- Transcription of `aesni_setkey_enc_128`: 44 schedule words (11 round
keys) derived from a 16-byte key. -/
def aesni_setkey_enc_128 (key : List Nat) : List Word := loop128 (keyBlock key 0) rcon128

/-- One step of the 192-bit key expansion (`1:` auxiliary routine of
`aesni_setkey_enc_192`): from the six words `r0..r5` produce `r6..r11`,
where `r6..r9` come from the slide cascade seeded with
`rot(sub(r5)) ^ rcon`, `r10 = r9 ^ r4` and `r11 = r10 ^ r5`. -/
def step192 (b : Block) (r4 r5 : Word) (rcon : Nat) : Block × Word × Word :=
  (slide b (rotSubRcon r5 rcon),
   xorW (topWord (slide b (rotSubRcon r5 rcon))) r4,
   xorW (xorW (topWord (slide b (rotSubRcon r5 rcon))) r4) r5)

/-- Store/step loop of `aesni_setkey_enc_192`: each call of the auxiliary
routine writes six freshly derived schedule words. -/
def loop192 : Block → Word → Word → List Nat → List Word
  | _, _, _, [] => []
  | b, r4, r5, r :: rs =>
    let s := step192 b r4 r5 r
    blockWords s.1 ++ [s.2.1, s.2.2] ++ loop192 s.1 s.2.1 s.2.2 rs

/-- Round constant bytes consumed by `aesni_setkey_enc_192`. -/
def rcon192 : List Nat := [0x01, 0x02, 0x04, 0x08, 0x10, 0x20, 0x40, 0x80]

/-- Transcription of `aesni_setkey_enc_192`: the 24-byte key is stored as the
first six schedule words, then eight expansion steps emit six words each,
54 words in total (13 round keys plus two trailing words). -/
def aesni_setkey_enc_192 (key : List Nat) : List Word :=
  blockWords (keyBlock key 0) ++ [keyWord key 4, keyWord key 5] ++
    loop192 (keyBlock key 0) (keyWord key 4) (keyWord key 5) rcon192

/-- One step of the 256-bit key expansion (`1:` auxiliary routine of
`aesni_setkey_enc_256`): the even round key comes from the slide cascade
seeded with `rot(sub(r7)) ^ rcon`, the odd one from the cascade seeded with
`sub` of the just-produced word (AESKEYGENASSIST with round constant 0). -/
def step256 (b0 b1 : Block) (rcon : Nat) : Block × Block :=
  (slide b0 (rotSubRcon (topWord b1) rcon),
   slide b1 (subWord (topWord (slide b0 (rotSubRcon (topWord b1) rcon)))))

/-- Store/step loop of `aesni_setkey_enc_256`: each call of the auxiliary
routine writes two freshly derived round keys. -/
def loop256 : Block → Block → List Nat → List Word
  | _, _, [] => []
  | a, b, r :: rs =>
    let s := step256 a b r
    blockWords s.1 ++ blockWords s.2 ++ loop256 s.1 s.2 rs

/-- Round constant bytes consumed by `aesni_setkey_enc_256`. -/
def rcon256 : List Nat := [0x01, 0x02, 0x04, 0x08, 0x10, 0x20, 0x40]

/-- Transcription of `aesni_setkey_enc_256`: the 32-byte key is stored as the
first two round keys, then seven expansion steps emit two round keys each,
64 words in total (15 round keys plus one extra trailing key, matching the
"one more key than necessary" comment in the source). -/
def aesni_setkey_enc_256 (key : List Nat) : List Word :=
  blockWords (keyBlock key 0) ++ blockWords (keyBlock key 1) ++
    loop256 (keyBlock key 0) (keyBlock key 1) rcon256

/-- Error code `MBEDTLS_ERR_AES_INVALID_KEY_LENGTH` from the mbed TLS
headers. -/
def MBEDTLS_ERR_AES_INVALID_KEY_LENGTH : Int := -0x0020

/-- Transcription of `mbedtls_aesni_setkey_enc`: dispatch on the key size in
bits, producing the schedule word buffer for 128-, 192- or 256-bit keys and
the invalid-key-length error for every other size, with no output written. -/
def mbedtls_aesni_setkey_enc (key : List Nat) (bits : Nat) : Except Int (List Word) :=
  if bits = 128 then .ok (aesni_setkey_enc_128 key)
  else if bits = 192 then .ok (aesni_setkey_enc_192 key)
  else if bits = 256 then .ok (aesni_setkey_enc_256 key)
  else .error MBEDTLS_ERR_AES_INVALID_KEY_LENGTH

/-- Process-wide state of `mbedtls_aesni_has_support`: the `static int done`
flag and the `static unsigned int c` cache of the CPUID feature word. -/
@[ext]
structure SupportState where
  done : Bool
  c : Nat
  deriving DecidableEq, Repr

/-- Initial values of the static variables of `mbedtls_aesni_has_support`. -/
def initSupportState : SupportState := ⟨false, 0⟩

/-- Transcription of `mbedtls_aesni_has_support`: on the first call (while
`done` is false) run CPUID and cache the ECX feature word `cpu`; every call
returns whether the cached word ANDed with the queried mask is nonzero.
`cpu` is the immutable hardware feature word, a parameter of the model. -/
def mbedtls_aesni_has_support (cpu what : Nat) (st : SupportState) : Bool × SupportState :=
  let st' := if st.done then st else ⟨true, cpu⟩
  ((st'.c &&& what) != 0, st')

/-- Run a sequence of `mbedtls_aesni_has_support` calls, threading the static
state. -/
def runSupport (cpu : Nat) : List Nat → SupportState → SupportState
  | [], st => st
  | w :: ws, st => runSupport cpu ws (mbedtls_aesni_has_support cpu w st).2

/-- Count how many calls in a sequence actually execute the CPUID query
(i.e. run with `done` still false). -/
def supportQueries (cpu : Nat) : List Nat → SupportState → Nat
  | [], _ => 0
  | w :: ws, st =>
    (if st.done then 0 else 1) + supportQueries cpu ws (mbedtls_aesni_has_support cpu w st).2

/-- PSLLQ on a 128-bit register: shift each 64-bit lane left by `n`, bits
shifted past a lane boundary are lost. -/
def psllq (n x : Nat) : Nat :=
  ((((x >>> 64) <<< n) % 2 ^ 64) <<< 64) ||| (((x % 2 ^ 64) <<< n) % 2 ^ 64)

/-- PSRLQ on a 128-bit register: shift each 64-bit lane right by `n`. -/
def psrlq (n x : Nat) : Nat :=
  (((x >>> 64) >>> n) <<< 64) ||| ((x % 2 ^ 64) >>> n)

/-- PSLLDQ by 8 bytes on a 128-bit register: the low qword moves to the high
qword position. -/
def pslldq8 (x : Nat) : Nat := (x % 2 ^ 64) <<< 64

/-- PSRLDQ by 8 bytes on a 128-bit register: the high qword moves to the low
qword position. -/
def psrldq8 (x : Nat) : Nat := x >>> 64

/-- Carry-less 64x64 multiplication, accumulated bit by bit: the semantics of
one PCLMULQDQ quadword product. -/
def clmulAux (a b : Nat) : Nat → Nat
  | 0 => 0
  | n + 1 => clmulAux a b n ^^^ (if b.testBit n then a <<< n else 0)

/-- Carry-less product of two 64-bit values. -/
def clmul (a b : Nat) : Nat := clmulAux a b 64

/-- Combination, shift and modular reduction of `mbedtls_aesni_gcm_mult`,
transcribed register by register from the inline assembly; `c` and `d` are
the low and high 128-bit partial products, `ef` the XOR of the two cross
products. -/
def gcmReduce (c d ef : Nat) : Nat :=
  let xmm1 := c ^^^ pslldq8 ef
  let xmm2 := d ^^^ psrldq8 ef
  let xmm3 := xmm1
  let xmm4 := xmm2
  let x1 := psllq 1 xmm1
  let x2 := psllq 1 xmm2
  let r3 := psrlq 63 xmm3
  let r4 := psrlq 63 xmm4
  let x1s := x1 ||| pslldq8 r3
  let x2s := (x2 ||| pslldq8 r4) ||| psrldq8 r3
  let a := psllq 63 x1s
  let b := psllq 62 x1s
  let e := psllq 57 x1s
  let dx0 := x1s ^^^ pslldq8 ((a ^^^ b) ^^^ e)
  let e1 := psrlq 1 dx0
  let f1 := psrlq 2 dx0
  let g1 := psrlq 7 dx0
  let efg := (e1 ^^^ f1) ^^^ g1
  let m1 := psllq 63 dx0
  let m2 := psllq 62 dx0
  let m3 := psllq 57 dx0
  let miss := psrldq8 ((m1 ^^^ m2) ^^^ m3)
  ((efg ^^^ miss) ^^^ dx0) ^^^ x2s

/-- Core of `mbedtls_aesni_gcm_mult` on the byte-reversed 128-bit register
values `xa` (operand `a`) and `xb` (operand `b`): four PCLMULQDQ quadword
products, cross-term combination, the one-bit left shift and the reduction
modulo the GCM polynomial. -/
def gcmCore (xa xb : Nat) : Nat :=
  gcmReduce (clmul (xb % 2 ^ 64) (xa % 2 ^ 64)) (clmul (xb >>> 64) (xa >>> 64))
    (clmul (xb >>> 64) (xa % 2 ^ 64) ^^^ clmul (xb % 2 ^ 64) (xa >>> 64))

/-- Value of a byte list read as a little-endian number, the content of an
XMM register loaded from it. -/
def leNat : List Nat → Nat
  | [] => 0
  | b :: bs => b + 256 * leNat bs

/-- The 16 little-endian bytes of a 128-bit register value. -/
def leBytes16 (r : Nat) : List Nat :=
  (List.range 16).map fun i => (r >>> (8 * i)) % 256

/-- Transcription of `mbedtls_aesni_gcm_mult`: byte-reverse the big-endian
inputs, run the carry-less multiplication and reduction, byte-reverse the
result back to big-endian order. -/
def mbedtls_aesni_gcm_mult (a b : List Nat) : List Nat :=
  (leBytes16 (gcmCore (leNat a.reverse) (leNat b.reverse))).reverse

/-! ### Byte-level facts -/

/-- A byte is below 256. -/
def isByte (b : Nat) : Prop := b < 256

instance : Std.Associative (fun (x y : Nat) => x ^^^ y) := ⟨Nat.xor_assoc⟩

instance : Std.Commutative (fun (x y : Nat) => x ^^^ y) := ⟨Nat.xor_comm⟩

theorem xor_lt_256 {x y : Nat} (hx : x < 256) (hy : y < 256) : x ^^^ y < 256 :=
  Nat.xor_lt_two_pow (n := 8) hx hy

theorem sbox_lt (b : Nat) : sbox b < 256 := by
  by_cases h : b < 256
  · exact (by decide : ∀ b, b < 256 → sbox b < 256) b h
  · rw [sbox, List.getD_eq_default]
    · decide
    · simp only [sboxTable, List.length_cons, List.length_nil]
      omega

theorem invSbox_lt (b : Nat) : invSbox b < 256 := by
  by_cases h : b < 256
  · exact (by decide : ∀ b, b < 256 → invSbox b < 256) b h
  · rw [invSbox, List.getD_eq_default]
    · decide
    · simp only [invSboxTable, List.length_cons, List.length_nil]
      omega

theorem invSbox_sbox {b : Nat} (h : b < 256) : invSbox (sbox b) = b :=
  (by decide : ∀ b, b < 256 → invSbox (sbox b) = b) b h

theorem mul2_lt {b : Nat} (h : b < 256) : mul2 b < 256 :=
  (by decide : ∀ b, b < 256 → mul2 b < 256) b h

theorem mul3_lt {b : Nat} (h : b < 256) : mul3 b < 256 :=
  (by decide : ∀ b, b < 256 → mul3 b < 256) b h

theorem mul9_lt {b : Nat} (h : b < 256) : mul9 b < 256 :=
  (by decide : ∀ b, b < 256 → mul9 b < 256) b h

theorem mul11_lt {b : Nat} (h : b < 256) : mul11 b < 256 :=
  (by decide : ∀ b, b < 256 → mul11 b < 256) b h

theorem mul13_lt {b : Nat} (h : b < 256) : mul13 b < 256 :=
  (by decide : ∀ b, b < 256 → mul13 b < 256) b h

theorem mul14_lt {b : Nat} (h : b < 256) : mul14 b < 256 :=
  (by decide : ∀ b, b < 256 → mul14 b < 256) b h

theorem shiftLeft_one_xor (x y : Nat) : (x ^^^ y) <<< 1 = x <<< 1 ^^^ y <<< 1 := by
  apply Nat.eq_of_testBit_eq
  intro i
  simp only [Nat.testBit_shiftLeft, Nat.testBit_xor, Bool.and_xor_distrib_left]

theorem xor_xor_cancel_pair (a b r : Nat) : (a ^^^ r) ^^^ (b ^^^ r) = a ^^^ b := by
  have h : (a ^^^ r) ^^^ (b ^^^ r) = (a ^^^ b) ^^^ (r ^^^ r) := by ac_rfl
  rw [h, Nat.xor_self, Nat.xor_zero]

theorem xtime_xor (x y : Nat) : xtime (x ^^^ y) = xtime x ^^^ xtime y := by
  unfold xtime
  rw [shiftLeft_one_xor, Nat.testBit_xor]
  cases hx : x.testBit 7 <;> cases hy : y.testBit 7 <;>
    simp only [Bool.xor_false, Bool.xor_true, Bool.xor_self, Bool.not_true, Bool.not_false,
      Bool.false_eq_true, Bool.true_eq_false, if_true, if_false, ite_true, ite_false,
      Nat.xor_zero]
  · ac_rfl
  · ac_rfl
  · have h : x <<< 1 ^^^ 283 ^^^ (y <<< 1 ^^^ 283) = (x <<< 1 ^^^ y <<< 1) ^^^ (283 ^^^ 283) := by
      ac_rfl
    rw [h, Nat.xor_self, Nat.xor_zero]

theorem mul2_xor (x y : Nat) : mul2 (x ^^^ y) = mul2 x ^^^ mul2 y := xtime_xor x y

theorem mul3_xor (x y : Nat) : mul3 (x ^^^ y) = mul3 x ^^^ mul3 y := by
  simp only [mul3, xtime_xor]
  ac_rfl

theorem mul9_xor (x y : Nat) : mul9 (x ^^^ y) = mul9 x ^^^ mul9 y := by
  simp only [mul9, xtime_xor]
  ac_rfl

theorem mul11_xor (x y : Nat) : mul11 (x ^^^ y) = mul11 x ^^^ mul11 y := by
  simp only [mul11, xtime_xor]
  ac_rfl

theorem mul13_xor (x y : Nat) : mul13 (x ^^^ y) = mul13 x ^^^ mul13 y := by
  simp only [mul13, xtime_xor]
  ac_rfl

theorem mul14_xor (x y : Nat) : mul14 (x ^^^ y) = mul14 x ^^^ mul14 y := by
  simp only [mul14, xtime_xor]
  ac_rfl

theorem invmix_coeff_diag : ∀ x, x < 256 →
    mul14 (mul2 x) ^^^ mul11 x ^^^ mul13 x ^^^ mul9 (mul3 x) = x := by decide

theorem invmix_coeff_z1 : ∀ x, x < 256 →
    mul14 (mul3 x) ^^^ mul11 (mul2 x) ^^^ mul13 x ^^^ mul9 x = 0 := by decide

theorem invmix_coeff_z2 : ∀ x, x < 256 →
    mul14 x ^^^ mul11 (mul3 x) ^^^ mul13 (mul2 x) ^^^ mul9 x = 0 := by decide

theorem invmix_coeff_z3 : ∀ x, x < 256 →
    mul14 x ^^^ mul11 x ^^^ mul13 (mul3 x) ^^^ mul9 (mul2 x) = 0 := by decide

theorem invMixRow0 {a b c d : Nat} (ha : a < 256) (hb : b < 256) (hc : c < 256) (hd : d < 256) :
    mul14 (mul2 a ^^^ mul3 b ^^^ c ^^^ d) ^^^ mul11 (a ^^^ mul2 b ^^^ mul3 c ^^^ d) ^^^
      mul13 (a ^^^ b ^^^ mul2 c ^^^ mul3 d) ^^^ mul9 (mul3 a ^^^ b ^^^ c ^^^ mul2 d) = a := by
  simp only [mul14_xor, mul11_xor, mul13_xor, mul9_xor]
  have key : (mul14 (mul2 a) ^^^ mul11 a ^^^ mul13 a ^^^ mul9 (mul3 a)) ^^^
      ((mul14 (mul3 b) ^^^ mul11 (mul2 b) ^^^ mul13 b ^^^ mul9 b) ^^^
      ((mul14 c ^^^ mul11 (mul3 c) ^^^ mul13 (mul2 c) ^^^ mul9 c) ^^^
      (mul14 d ^^^ mul11 d ^^^ mul13 (mul3 d) ^^^ mul9 (mul2 d)))) = a := by
    rw [invmix_coeff_diag a ha, invmix_coeff_z1 b hb, invmix_coeff_z2 c hc, invmix_coeff_z3 d hd]
    simp
  conv_rhs => rw [← key]
  ac_rfl

theorem invMixRow1 {a b c d : Nat} (ha : a < 256) (hb : b < 256) (hc : c < 256) (hd : d < 256) :
    mul9 (mul2 a ^^^ mul3 b ^^^ c ^^^ d) ^^^ mul14 (a ^^^ mul2 b ^^^ mul3 c ^^^ d) ^^^
      mul11 (a ^^^ b ^^^ mul2 c ^^^ mul3 d) ^^^ mul13 (mul3 a ^^^ b ^^^ c ^^^ mul2 d) = b := by
  simp only [mul14_xor, mul11_xor, mul13_xor, mul9_xor]
  have key : (mul14 a ^^^ mul11 a ^^^ mul13 (mul3 a) ^^^ mul9 (mul2 a)) ^^^
      ((mul14 (mul2 b) ^^^ mul11 b ^^^ mul13 b ^^^ mul9 (mul3 b)) ^^^
      ((mul14 (mul3 c) ^^^ mul11 (mul2 c) ^^^ mul13 c ^^^ mul9 c) ^^^
      (mul14 d ^^^ mul11 (mul3 d) ^^^ mul13 (mul2 d) ^^^ mul9 d))) = b := by
    rw [invmix_coeff_z3 a ha, invmix_coeff_diag b hb, invmix_coeff_z1 c hc, invmix_coeff_z2 d hd]
    simp
  conv_rhs => rw [← key]
  ac_rfl

theorem invMixRow2 {a b c d : Nat} (ha : a < 256) (hb : b < 256) (hc : c < 256) (hd : d < 256) :
    mul13 (mul2 a ^^^ mul3 b ^^^ c ^^^ d) ^^^ mul9 (a ^^^ mul2 b ^^^ mul3 c ^^^ d) ^^^
      mul14 (a ^^^ b ^^^ mul2 c ^^^ mul3 d) ^^^ mul11 (mul3 a ^^^ b ^^^ c ^^^ mul2 d) = c := by
  simp only [mul14_xor, mul11_xor, mul13_xor, mul9_xor]
  have key : (mul14 a ^^^ mul11 (mul3 a) ^^^ mul13 (mul2 a) ^^^ mul9 a) ^^^
      ((mul14 b ^^^ mul11 b ^^^ mul13 (mul3 b) ^^^ mul9 (mul2 b)) ^^^
      ((mul14 (mul2 c) ^^^ mul11 c ^^^ mul13 c ^^^ mul9 (mul3 c)) ^^^
      (mul14 (mul3 d) ^^^ mul11 (mul2 d) ^^^ mul13 d ^^^ mul9 d))) = c := by
    rw [invmix_coeff_z2 a ha, invmix_coeff_z3 b hb, invmix_coeff_diag c hc, invmix_coeff_z1 d hd]
    simp
  conv_rhs => rw [← key]
  ac_rfl

theorem invMixRow3 {a b c d : Nat} (ha : a < 256) (hb : b < 256) (hc : c < 256) (hd : d < 256) :
    mul11 (mul2 a ^^^ mul3 b ^^^ c ^^^ d) ^^^ mul13 (a ^^^ mul2 b ^^^ mul3 c ^^^ d) ^^^
      mul9 (a ^^^ b ^^^ mul2 c ^^^ mul3 d) ^^^ mul14 (mul3 a ^^^ b ^^^ c ^^^ mul2 d) = d := by
  simp only [mul14_xor, mul11_xor, mul13_xor, mul9_xor]
  have key : (mul14 (mul3 a) ^^^ mul11 (mul2 a) ^^^ mul13 a ^^^ mul9 a) ^^^
      ((mul14 b ^^^ mul11 (mul3 b) ^^^ mul13 (mul2 b) ^^^ mul9 b) ^^^
      ((mul14 c ^^^ mul11 c ^^^ mul13 (mul3 c) ^^^ mul9 (mul2 c)) ^^^
      (mul14 (mul2 d) ^^^ mul11 d ^^^ mul13 d ^^^ mul9 (mul3 d)))) = d := by
    rw [invmix_coeff_z1 a ha, invmix_coeff_z2 b hb, invmix_coeff_z3 c hc, invmix_coeff_diag d hd]
    simp
  conv_rhs => rw [← key]
  ac_rfl

/-! ### Block-level state facts -/

/-- All sixteen bytes of a block are below 256. -/
def okB (s : Block) : Prop :=
  s.b0 < 256 ∧ s.b1 < 256 ∧ s.b2 < 256 ∧ s.b3 < 256 ∧
  s.b4 < 256 ∧ s.b5 < 256 ∧ s.b6 < 256 ∧ s.b7 < 256 ∧
  s.b8 < 256 ∧ s.b9 < 256 ∧ s.b10 < 256 ∧ s.b11 < 256 ∧
  s.b12 < 256 ∧ s.b13 < 256 ∧ s.b14 < 256 ∧ s.b15 < 256

instance (s : Block) : Decidable (okB s) := by unfold okB; infer_instance

/-- SubBytes composed with ShiftRows, the state part of the last round and
the loop invariant shape of the inversion proof. -/
def subShift (s : Block) : Block := subBytes (shiftRows s)

theorem okB_xorB {x y : Block} (hx : okB x) (hy : okB y) : okB (xorB x y) := by
  obtain ⟨x0, x1, x2, x3, x4, x5, x6, x7, x8, x9, x10, x11, x12, x13, x14, x15⟩ := hx
  obtain ⟨y0, y1, y2, y3, y4, y5, y6, y7, y8, y9, y10, y11, y12, y13, y14, y15⟩ := hy
  exact ⟨xor_lt_256 x0 y0, xor_lt_256 x1 y1, xor_lt_256 x2 y2, xor_lt_256 x3 y3,
    xor_lt_256 x4 y4, xor_lt_256 x5 y5, xor_lt_256 x6 y6, xor_lt_256 x7 y7,
    xor_lt_256 x8 y8, xor_lt_256 x9 y9, xor_lt_256 x10 y10, xor_lt_256 x11 y11,
    xor_lt_256 x12 y12, xor_lt_256 x13 y13, xor_lt_256 x14 y14, xor_lt_256 x15 y15⟩

theorem okB_subBytes (s : Block) : okB (subBytes s) :=
  ⟨sbox_lt _, sbox_lt _, sbox_lt _, sbox_lt _, sbox_lt _, sbox_lt _, sbox_lt _, sbox_lt _,
   sbox_lt _, sbox_lt _, sbox_lt _, sbox_lt _, sbox_lt _, sbox_lt _, sbox_lt _, sbox_lt _⟩

theorem okB_invSubBytes (s : Block) : okB (invSubBytes s) :=
  ⟨invSbox_lt _, invSbox_lt _, invSbox_lt _, invSbox_lt _, invSbox_lt _, invSbox_lt _,
   invSbox_lt _, invSbox_lt _, invSbox_lt _, invSbox_lt _, invSbox_lt _, invSbox_lt _,
   invSbox_lt _, invSbox_lt _, invSbox_lt _, invSbox_lt _⟩

theorem okB_subShift (s : Block) : okB (subShift s) := okB_subBytes _

theorem okB_mixColumns {s : Block} (h : okB s) : okB (mixColumns s) := by
  obtain ⟨h0, h1, h2, h3, h4, h5, h6, h7, h8, h9, h10, h11, h12, h13, h14, h15⟩ := h
  refine ⟨?_, ?_, ?_, ?_, ?_, ?_, ?_, ?_, ?_, ?_, ?_, ?_, ?_, ?_, ?_, ?_⟩ <;>
    exact xor_lt_256 (xor_lt_256 (xor_lt_256 (by first
      | exact mul2_lt ‹_›
      | exact mul3_lt ‹_›
      | assumption) (by first
      | exact mul2_lt ‹_›
      | exact mul3_lt ‹_›
      | assumption)) (by first
      | exact mul2_lt ‹_›
      | exact mul3_lt ‹_›
      | assumption)) (by first
      | exact mul2_lt ‹_›
      | exact mul3_lt ‹_›
      | assumption)

theorem okB_invMixColumns {s : Block} (h : okB s) : okB (invMixColumns s) := by
  obtain ⟨h0, h1, h2, h3, h4, h5, h6, h7, h8, h9, h10, h11, h12, h13, h14, h15⟩ := h
  refine ⟨?_, ?_, ?_, ?_, ?_, ?_, ?_, ?_, ?_, ?_, ?_, ?_, ?_, ?_, ?_, ?_⟩ <;>
    exact xor_lt_256 (xor_lt_256 (xor_lt_256 (by first
      | exact mul14_lt ‹_›
      | exact mul11_lt ‹_›
      | exact mul13_lt ‹_›
      | exact mul9_lt ‹_›) (by first
      | exact mul14_lt ‹_›
      | exact mul11_lt ‹_›
      | exact mul13_lt ‹_›
      | exact mul9_lt ‹_›)) (by first
      | exact mul14_lt ‹_›
      | exact mul11_lt ‹_›
      | exact mul13_lt ‹_›
      | exact mul9_lt ‹_›)) (by first
      | exact mul14_lt ‹_›
      | exact mul11_lt ‹_›
      | exact mul13_lt ‹_›
      | exact mul9_lt ‹_›)

theorem okB_aesenc (s : Block) {k : Block} (hk : okB k) : okB (aesenc s k) :=
  okB_xorB (okB_mixColumns (okB_subBytes _)) hk

theorem xorB_cancel_right (z k : Block) : xorB (xorB z k) k = z := by
  cases z
  cases k
  simp only [xorB, Block.mk.injEq]
  refine ⟨?_, ?_, ?_, ?_, ?_, ?_, ?_, ?_, ?_, ?_, ?_, ?_, ?_, ?_, ?_, ?_⟩ <;>
    exact Nat.xor_cancel_right _ _

theorem invShiftRows_shiftRows (s : Block) : invShiftRows (shiftRows s) = s := rfl

theorem invShiftRows_subBytes (s : Block) : invShiftRows (subBytes s) = subBytes (invShiftRows s) :=
  rfl

theorem invSubBytes_subBytes {s : Block} (h : okB s) : invSubBytes (subBytes s) = s := by
  obtain ⟨h0, h1, h2, h3, h4, h5, h6, h7, h8, h9, h10, h11, h12, h13, h14, h15⟩ := h
  cases s
  simp only [subBytes, invSubBytes, Block.mk.injEq]
  exact ⟨invSbox_sbox h0, invSbox_sbox h1, invSbox_sbox h2, invSbox_sbox h3,
    invSbox_sbox h4, invSbox_sbox h5, invSbox_sbox h6, invSbox_sbox h7,
    invSbox_sbox h8, invSbox_sbox h9, invSbox_sbox h10, invSbox_sbox h11,
    invSbox_sbox h12, invSbox_sbox h13, invSbox_sbox h14, invSbox_sbox h15⟩

theorem unSubShift {z : Block} (hz : okB z) :
    invSubBytes (invShiftRows (subBytes (shiftRows z))) = z := by
  rw [invShiftRows_subBytes, invShiftRows_shiftRows, invSubBytes_subBytes hz]

theorem invMixColumns_xorB (u v : Block) :
    invMixColumns (xorB u v) = xorB (invMixColumns u) (invMixColumns v) := by
  cases u
  cases v
  simp only [xorB, invMixColumns, Block.mk.injEq, mul14_xor, mul11_xor, mul13_xor, mul9_xor]
  refine ⟨?_, ?_, ?_, ?_, ?_, ?_, ?_, ?_, ?_, ?_, ?_, ?_, ?_, ?_, ?_, ?_⟩ <;> ac_rfl

theorem invMixColumns_mixColumns {s : Block} (h : okB s) :
    invMixColumns (mixColumns s) = s := by
  obtain ⟨h0, h1, h2, h3, h4, h5, h6, h7, h8, h9, h10, h11, h12, h13, h14, h15⟩ := h
  cases s
  simp only [mixColumns, invMixColumns, Block.mk.injEq]
  exact ⟨invMixRow0 h0 h1 h2 h3, invMixRow1 h0 h1 h2 h3, invMixRow2 h0 h1 h2 h3,
    invMixRow3 h0 h1 h2 h3, invMixRow0 h4 h5 h6 h7, invMixRow1 h4 h5 h6 h7,
    invMixRow2 h4 h5 h6 h7, invMixRow3 h4 h5 h6 h7, invMixRow0 h8 h9 h10 h11,
    invMixRow1 h8 h9 h10 h11, invMixRow2 h8 h9 h10 h11, invMixRow3 h8 h9 h10 h11,
    invMixRow0 h12 h13 h14 h15, invMixRow1 h12 h13 h14 h15, invMixRow2 h12 h13 h14 h15,
    invMixRow3 h12 h13 h14 h15⟩

/-- One decryption round with the InvMixColumns-transformed round key undoes
one encryption round, on states presented through `subShift`. -/
theorem aesdec_aesenc (s : Block) {k : Block} (hk : okB k) :
    aesdec (subShift (aesenc s k)) (aesimc k) = subShift s := by
  have hz : okB (aesenc s k) := okB_aesenc s hk
  calc aesdec (subShift (aesenc s k)) (aesimc k)
      = xorB (invMixColumns (invSubBytes (invShiftRows (subBytes (shiftRows (aesenc s k))))))
          (invMixColumns k) := rfl
    _ = xorB (invMixColumns (aesenc s k)) (invMixColumns k) := by rw [unSubShift hz]
    _ = invMixColumns (xorB (aesenc s k) k) := (invMixColumns_xorB _ _).symm
    _ = invMixColumns (xorB (xorB (mixColumns (subShift s)) k) k) := rfl
    _ = invMixColumns (mixColumns (subShift s)) := by rw [xorB_cancel_right]
    _ = subShift s := invMixColumns_mixColumns (okB_subShift s)

/-- The decryption round fold over the reversed, InvMixColumns-transformed
round keys undoes the encryption round fold. -/
theorem decFold (ks : List Block) (s : Block) (hk : ∀ k ∈ ks, okB k) :
    List.foldl aesdec (subShift (List.foldl aesenc s ks)) ((ks.reverse).map aesimc)
      = subShift s := by
  induction ks generalizing s with
  | nil => simp
  | cons k ks ih =>
    simp only [List.foldl_cons, List.reverse_cons, List.map_append, List.map_cons,
      List.map_nil, List.foldl_append]
    rw [ih (aesenc s k) fun x hx => hk x (List.mem_cons_of_mem _ hx)]
    simpa using aesdec_aesenc s (hk k (List.mem_cons_self _ _))

/-- List-level statement of AES inversion: decrypting with the reversed,
InvMixColumns-transformed key sequence undoes encryption. -/
theorem roundtripList (k0 klast : Block) (ks : List Block) (p : Block)
    (hks : ∀ k ∈ ks, okB k) (hp : okB p) (hk0 : okB k0) :
    aesdeclast (List.foldl aesdec
        (xorB (aesenclast (List.foldl aesenc (xorB p k0) ks) klast) klast)
        ((ks.reverse).map aesimc)) k0 = p := by
  have h1 : xorB (aesenclast (List.foldl aesenc (xorB p k0) ks) klast) klast
      = subShift (List.foldl aesenc (xorB p k0) ks) := by
    show xorB (xorB (subShift (List.foldl aesenc (xorB p k0) ks)) klast) klast = _
    rw [xorB_cancel_right]
  rw [h1, decFold ks _ hks]
  show xorB (invSubBytes (invShiftRows (subBytes (shiftRows (xorB p k0))))) k0 = p
  rw [unSubShift (okB_xorB hp hk0), xorB_cancel_right]

/-! ### The round loop as a fold -/

theorem ecbLoop_eq_foldl (f : Block → Block → Block) (rk : Nat → Block) :
    ∀ count idx s, 0 < count →
      ecbLoop f rk count idx s = List.foldl f s ((List.range' idx count).map rk) := by
  intro count
  induction count with
  | zero => omega
  | succ n ih =>
    intro idx s _
    cases n with
    | zero => simp [ecbLoop, List.range']
    | succ m =>
      rw [show ecbLoop f rk (m + 2) idx s = ecbLoop f rk (m + 1) (idx + 1) (f s (rk idx))
          from rfl,
        ih (idx + 1) (f s (rk idx)) (Nat.succ_pos m)]
      conv_rhs => rw [List.range'_succ]
      simp

/-- The encryption path of `mbedtls_aesni_crypt_ecb` as a fold over the round
keys at indices 1 to `nr - 1`. -/
theorem crypt_ecb_enc_eq (nr : Nat) (rk : Nat → Block) (input : Block) (h : 2 ≤ nr) :
    mbedtls_aesni_crypt_ecb nr rk MBEDTLS_AES_ENCRYPT input =
      aesenclast (List.foldl aesenc (xorB input (rk 0)) ((List.range' 1 (nr - 1)).map rk))
        (rk nr) := by
  unfold mbedtls_aesni_crypt_ecb MBEDTLS_AES_ENCRYPT
  rw [if_neg one_ne_zero, ecbLoop_eq_foldl aesenc rk (nr - 1) 1 _ (by omega)]

/-- The decryption path of `mbedtls_aesni_crypt_ecb` as a fold over the round
keys at indices 1 to `nr - 1`. -/
theorem crypt_ecb_dec_eq (nr : Nat) (rk : Nat → Block) (input : Block) (h : 2 ≤ nr) :
    mbedtls_aesni_crypt_ecb nr rk MBEDTLS_AES_DECRYPT input =
      aesdeclast (List.foldl aesdec (xorB input (rk 0)) ((List.range' 1 (nr - 1)).map rk))
        (rk nr) := by
  unfold mbedtls_aesni_crypt_ecb MBEDTLS_AES_DECRYPT
  rw [if_pos rfl, ecbLoop_eq_foldl aesdec rk (nr - 1) 1 _ (by omega)]

/-! ### The inverse key buffer -/

theorem invKeyLoop_length (fwd : Nat → Block) : ∀ m, (invKeyLoop fwd m).length = m + 1
  | 0 => rfl
  | m + 1 => by simp [invKeyLoop, invKeyLoop_length fwd m]

theorem invKeyLoop_getD (fwd : Nat → Block) (d : Block) :
    ∀ m i, (invKeyLoop fwd m).getD i d =
      if i < m then aesimc (fwd (m - i)) else if i = m then fwd 0 else d := by
  intro m
  induction m with
  | zero =>
    intro i
    cases i with
    | zero => rfl
    | succ j => simp [invKeyLoop]
  | succ m ih =>
    intro i
    cases i with
    | zero => simp [invKeyLoop]
    | succ j =>
      have : (invKeyLoop fwd (m + 1)).getD (j + 1) d = (invKeyLoop fwd m).getD j d := rfl
      rw [this, ih j]
      by_cases h1 : j < m
      · rw [if_pos h1, if_pos (by omega)]
        rw [show m - j = m + 1 - (j + 1) from by omega]
      · by_cases h2 : j = m
        · subst h2
          rw [if_neg h1, if_pos rfl, if_neg (by omega), if_pos rfl]
        · rw [if_neg h1, if_neg h2, if_neg (by omega), if_neg (by omega)]

theorem inverse_key_length (fwd : Nat → Block) (nr : Nat) (h : 1 ≤ nr) :
    (mbedtls_aesni_inverse_key fwd nr).length = nr + 1 := by
  unfold mbedtls_aesni_inverse_key
  rw [List.length_cons, invKeyLoop_length]
  omega

theorem inverse_key_getD_zero (fwd : Nat → Block) (nr : Nat) (d : Block) :
    (mbedtls_aesni_inverse_key fwd nr).getD 0 d = fwd nr := rfl

theorem inverse_key_getD_last (fwd : Nat → Block) (nr : Nat) (d : Block) (h : 1 ≤ nr) :
    (mbedtls_aesni_inverse_key fwd nr).getD nr d = fwd 0 := by
  obtain ⟨m, rfl⟩ : ∃ m, nr = m + 1 := ⟨nr - 1, by omega⟩
  have : (mbedtls_aesni_inverse_key fwd (m + 1)).getD (m + 1) d
      = (invKeyLoop fwd m).getD m d := rfl
  rw [this, invKeyLoop_getD]
  simp

theorem inverse_key_getD_mid (fwd : Nat → Block) (nr i : Nat) (d : Block)
    (h1 : 0 < i) (h2 : i < nr) :
    (mbedtls_aesni_inverse_key fwd nr).getD i d = aesimc (fwd (nr - i)) := by
  obtain ⟨j, rfl⟩ : ∃ j, i = j + 1 := ⟨i - 1, by omega⟩
  have hstep : (mbedtls_aesni_inverse_key fwd nr).getD (j + 1) d
      = (invKeyLoop fwd (nr - 1)).getD j d := rfl
  rw [hstep, invKeyLoop_getD, if_pos (by omega)]
  rw [show nr - 1 - j = nr - (j + 1) from by omega]

/-- Reading round keys 1 to `nr - 1` out of the inverse key buffer yields the
reversed, InvMixColumns-transformed middle of the forward schedule. -/
theorem inverse_key_map_mid (fwd : Nat → Block) (nr : Nat) (h : 2 ≤ nr) :
    (List.range' 1 (nr - 1)).map
        (fun i => (mbedtls_aesni_inverse_key fwd nr).getD i zeroBlock) =
      (((List.range' 1 (nr - 1)).map fwd).reverse).map aesimc := by
  apply List.ext_getElem
  · simp
  · intro i hi1 hi2
    have hlen : i < nr - 1 := by simpa using hi1
    simp only [List.getElem_map, List.getElem_reverse, List.length_map, List.length_range']
    simp only [List.getElem_range', one_mul]
    rw [inverse_key_getD_mid fwd nr (1 + i) zeroBlock (by omega) (by omega)]
    rw [show nr - (1 + i) = 1 + (nr - 1 - 1 - i) from by omega]

/-- Decryption through the buffer written by `mbedtls_aesni_inverse_key`
undoes encryption through any forward schedule of in-range bytes. -/
theorem roundtripFun (fwd : Nat → Block) (nr : Nat) (h2 : 2 ≤ nr)
    (hok : ∀ i, okB (fwd i)) (p : Block) (hp : okB p) :
    mbedtls_aesni_crypt_ecb nr
      (fun i => (mbedtls_aesni_inverse_key fwd nr).getD i zeroBlock) MBEDTLS_AES_DECRYPT
      (mbedtls_aesni_crypt_ecb nr fwd MBEDTLS_AES_ENCRYPT p) = p := by
  rw [crypt_ecb_enc_eq nr fwd p h2, crypt_ecb_dec_eq nr _ _ h2]
  simp only [inverse_key_map_mid fwd nr h2, inverse_key_getD_zero fwd nr zeroBlock,
    inverse_key_getD_last fwd nr zeroBlock (by omega)]
  exact roundtripList (fwd 0) (fwd nr) ((List.range' 1 (nr - 1)).map fwd) p
    (fun k hk => by
      obtain ⟨i, _, rfl⟩ := List.mem_map.mp hk
      exact hok i) hp (hok 0)

/-! ### Well-formed schedule buffers -/

/-- All four bytes of a schedule word are below 256. -/
def okW (w : Word) : Prop := w.x0 < 256 ∧ w.x1 < 256 ∧ w.x2 < 256 ∧ w.x3 < 256

theorem okW_zeroWord : okW zeroWord := ⟨by decide, by decide, by decide, by decide⟩

theorem okW_getD {ws : List Word} (h : ∀ w ∈ ws, okW w) (i : Nat) :
    okW (ws.getD i zeroWord) := by
  induction ws generalizing i with
  | nil =>
    cases i <;> exact okW_zeroWord
  | cons w ws ih =>
    cases i with
    | zero => exact h w (List.mem_cons_self _ _)
    | succ j => exact ih (fun x hx => h x (List.mem_cons_of_mem _ hx)) j

theorem okB_wordsToBlock {w0 w1 w2 w3 : Word} (h0 : okW w0) (h1 : okW w1) (h2 : okW w2)
    (h3 : okW w3) : okB (wordsToBlock w0 w1 w2 w3) :=
  ⟨h0.1, h0.2.1, h0.2.2.1, h0.2.2.2, h1.1, h1.2.1, h1.2.2.1, h1.2.2.2,
   h2.1, h2.2.1, h2.2.2.1, h2.2.2.2, h3.1, h3.2.1, h3.2.2.1, h3.2.2.2⟩

theorem okB_blockAt {ws : List Word} (h : ∀ w ∈ ws, okW w) (i : Nat) :
    okB (blockAt ws i) :=
  okB_wordsToBlock (okW_getD h _) (okW_getD h _) (okW_getD h _) (okW_getD h _)

theorem okW_xorW {x y : Word} (hx : okW x) (hy : okW y) : okW (xorW x y) :=
  ⟨xor_lt_256 hx.1 hy.1, xor_lt_256 hx.2.1 hy.2.1, xor_lt_256 hx.2.2.1 hy.2.2.1,
   xor_lt_256 hx.2.2.2 hy.2.2.2⟩

theorem okW_subWord (w : Word) : okW (subWord w) :=
  ⟨sbox_lt _, sbox_lt _, sbox_lt _, sbox_lt _⟩

theorem okW_rotSubRcon (w : Word) {rcon : Nat} (hr : rcon < 256) : okW (rotSubRcon w rcon) :=
  ⟨xor_lt_256 (sbox_lt _) hr, sbox_lt _, sbox_lt _, sbox_lt _⟩

theorem okW_topWord {b : Block} (hb : okB b) : okW (topWord b) :=
  ⟨hb.2.2.2.2.2.2.2.2.2.2.2.2.1, hb.2.2.2.2.2.2.2.2.2.2.2.2.2.1,
   hb.2.2.2.2.2.2.2.2.2.2.2.2.2.2.1, hb.2.2.2.2.2.2.2.2.2.2.2.2.2.2.2⟩

theorem okB_slide {b : Block} {x : Word} (hb : okB b) (hx : okW x) : okB (slide b x) := by
  obtain ⟨h0, h1, h2, h3, h4, h5, h6, h7, h8, h9, h10, h11, h12, h13, h14, h15⟩ := hb
  obtain ⟨hx0, hx1, hx2, hx3⟩ := hx
  exact ⟨xor_lt_256 h0 hx0, xor_lt_256 h1 hx1, xor_lt_256 h2 hx2, xor_lt_256 h3 hx3,
    xor_lt_256 h4 (xor_lt_256 h0 hx0), xor_lt_256 h5 (xor_lt_256 h1 hx1),
    xor_lt_256 h6 (xor_lt_256 h2 hx2), xor_lt_256 h7 (xor_lt_256 h3 hx3),
    xor_lt_256 h8 (xor_lt_256 h4 (xor_lt_256 h0 hx0)),
    xor_lt_256 h9 (xor_lt_256 h5 (xor_lt_256 h1 hx1)),
    xor_lt_256 h10 (xor_lt_256 h6 (xor_lt_256 h2 hx2)),
    xor_lt_256 h11 (xor_lt_256 h7 (xor_lt_256 h3 hx3)),
    xor_lt_256 h12 (xor_lt_256 h8 (xor_lt_256 h4 (xor_lt_256 h0 hx0))),
    xor_lt_256 h13 (xor_lt_256 h9 (xor_lt_256 h5 (xor_lt_256 h1 hx1))),
    xor_lt_256 h14 (xor_lt_256 h10 (xor_lt_256 h6 (xor_lt_256 h2 hx2))),
    xor_lt_256 h15 (xor_lt_256 h11 (xor_lt_256 h7 (xor_lt_256 h3 hx3)))⟩

theorem okW_blockWords {b : Block} (hb : okB b) : ∀ w ∈ blockWords b, okW w := by
  obtain ⟨h0, h1, h2, h3, h4, h5, h6, h7, h8, h9, h10, h11, h12, h13, h14, h15⟩ := hb
  intro w hw
  simp only [blockWords, List.mem_cons, List.not_mem_nil, or_false] at hw
  rcases hw with rfl | rfl | rfl | rfl
  · exact ⟨h0, h1, h2, h3⟩
  · exact ⟨h4, h5, h6, h7⟩
  · exact ⟨h8, h9, h10, h11⟩
  · exact ⟨h12, h13, h14, h15⟩

theorem getD_lt_256 {l : List Nat} (h : ∀ x ∈ l, x < 256) (j : Nat) : l.getD j 0 < 256 := by
  induction l generalizing j with
  | nil =>
    cases j with
    | zero =>
      show (0 : Nat) < 256
      decide
    | succ n =>
      show (0 : Nat) < 256
      decide
  | cons x l ih =>
    cases j with
    | zero => exact h x (List.mem_cons_self _ _)
    | succ j => exact ih (fun y hy => h y (List.mem_cons_of_mem _ hy)) j

theorem okW_keyWord {key : List Nat} (h : ∀ x ∈ key, x < 256) (i : Nat) :
    okW (keyWord key i) :=
  ⟨getD_lt_256 h _, getD_lt_256 h _, getD_lt_256 h _, getD_lt_256 h _⟩

theorem okB_keyBlock {key : List Nat} (h : ∀ x ∈ key, x < 256) (i : Nat) :
    okB (keyBlock key i) :=
  okB_wordsToBlock (okW_keyWord h _) (okW_keyWord h _) (okW_keyWord h _) (okW_keyWord h _)

theorem okB_step128 {b : Block} {r : Nat} (hb : okB b) (hr : r < 256) : okB (step128 b r) :=
  okB_slide hb (okW_rotSubRcon _ hr)

theorem okW_loop128 : ∀ (rs : List Nat) (b : Block), okB b → (∀ r ∈ rs, r < 256) →
    ∀ w ∈ loop128 b rs, okW w := by
  intro rs
  induction rs with
  | nil => exact fun b hb _ => okW_blockWords hb
  | cons r rs ih =>
    intro b hb hr w hw
    rw [loop128, List.mem_append] at hw
    rcases hw with hw | hw
    · exact okW_blockWords hb w hw
    · exact ih (step128 b r) (okB_step128 hb (hr r (List.mem_cons_self _ _)))
        (fun x hx => hr x (List.mem_cons_of_mem _ hx)) w hw

theorem okW_setkey128 {key : List Nat} (h : ∀ x ∈ key, x < 256) :
    ∀ w ∈ aesni_setkey_enc_128 key, okW w :=
  okW_loop128 rcon128 _ (okB_keyBlock h 0) (by decide)

theorem okW_loop192 : ∀ (rs : List Nat) (b : Block) (r4 r5 : Word),
    okB b → okW r4 → okW r5 → (∀ r ∈ rs, r < 256) →
    ∀ w ∈ loop192 b r4 r5 rs, okW w := by
  intro rs
  induction rs with
  | nil => intro b r4 r5 _ _ _ _ w hw; simp [loop192] at hw
  | cons r rs ih =>
    intro b r4 r5 hb h4 h5 hr w hw
    have hrb : r < 256 := hr r (List.mem_cons_self _ _)
    have hb' : okB (slide b (rotSubRcon r5 r)) := okB_slide hb (okW_rotSubRcon _ hrb)
    have h10 : okW (xorW (topWord (slide b (rotSubRcon r5 r))) r4) :=
      okW_xorW (okW_topWord hb') h4
    have h11 : okW (xorW (xorW (topWord (slide b (rotSubRcon r5 r))) r4) r5) :=
      okW_xorW h10 h5
    rw [loop192] at hw
    simp only [step192, List.mem_append, List.mem_cons, List.not_mem_nil, or_false] at hw
    rcases hw with (hw | rfl | rfl) | hw
    · exact okW_blockWords hb' w hw
    · exact h10
    · exact h11
    · exact ih _ _ _ hb' h10 h11 (fun x hx => hr x (List.mem_cons_of_mem _ hx)) w hw

theorem okW_setkey192 {key : List Nat} (h : ∀ x ∈ key, x < 256) :
    ∀ w ∈ aesni_setkey_enc_192 key, okW w := by
  intro w hw
  rw [aesni_setkey_enc_192, List.append_assoc, List.mem_append] at hw
  rcases hw with hw | hw
  · exact okW_blockWords (okB_keyBlock h 0) w hw
  · rw [List.mem_append] at hw
    rcases hw with hw | hw
    · rw [List.mem_cons, List.mem_cons] at hw
      rcases hw with rfl | rfl | hw
      · exact okW_keyWord h 4
      · exact okW_keyWord h 5
      · simp at hw
    · exact okW_loop192 rcon192 _ _ _ (okB_keyBlock h 0) (okW_keyWord h 4) (okW_keyWord h 5)
        (by decide) w hw

theorem okW_loop256 : ∀ (rs : List Nat) (a b : Block), okB a → okB b →
    (∀ r ∈ rs, r < 256) → ∀ w ∈ loop256 a b rs, okW w := by
  intro rs
  induction rs with
  | nil => intro a b _ _ _ w hw; simp [loop256] at hw
  | cons r rs ih =>
    intro a b ha hb hr w hw
    have hrb : r < 256 := hr r (List.mem_cons_self _ _)
    have ha' : okB (slide a (rotSubRcon (topWord b) r)) :=
      okB_slide ha (okW_rotSubRcon _ hrb)
    have hb' : okB (slide b (subWord (topWord (slide a (rotSubRcon (topWord b) r))))) :=
      okB_slide hb (okW_subWord _)
    rw [loop256] at hw
    simp only [step256, List.mem_append] at hw
    rcases hw with (hw | hw) | hw
    · exact okW_blockWords ha' w hw
    · exact okW_blockWords hb' w hw
    · exact ih _ _ ha' hb' (fun x hx => hr x (List.mem_cons_of_mem _ hx)) w hw

theorem okW_setkey256 {key : List Nat} (h : ∀ x ∈ key, x < 256) :
    ∀ w ∈ aesni_setkey_enc_256 key, okW w := by
  intro w hw
  rw [aesni_setkey_enc_256, List.mem_append] at hw
  rcases hw with hw | hw
  · rw [List.mem_append] at hw
    rcases hw with hw | hw
    · exact okW_blockWords (okB_keyBlock h 0) w hw
    · exact okW_blockWords (okB_keyBlock h 1) w hw
  · exact okW_loop256 rcon256 _ _ (okB_keyBlock h 0) (okB_keyBlock h 1) (by decide) w hw

/-! ### Claim theorems -/

/-- Key, plaintext and ciphertext of the FIPS-197 AES-128 example vector. -/
def fipsKey128 : List Nat :=
  [0x00, 0x01, 0x02, 0x03, 0x04, 0x05, 0x06, 0x07,
   0x08, 0x09, 0x0a, 0x0b, 0x0c, 0x0d, 0x0e, 0x0f]

/-- The FIPS-197 example plaintext block `00112233445566778899aabbccddeeff`. -/
def fipsPlain : Block :=
  ⟨0x00, 0x11, 0x22, 0x33, 0x44, 0x55, 0x66, 0x77,
   0x88, 0x99, 0xaa, 0xbb, 0xcc, 0xdd, 0xee, 0xff⟩

/-- The FIPS-197 example ciphertext block `69c4e0d86a7b0430d8cdb78070b4c55a`. -/
def fipsCipher : Block :=
  ⟨0x69, 0xc4, 0xe0, 0xd8, 0x6a, 0x7b, 0x04, 0x30,
   0xd8, 0xcd, 0xb7, 0x80, 0x70, 0xb4, 0xc5, 0x5a⟩

/-- A sample forward-schedule reading function used by witnesses. -/
def fwdSample : Nat → Block :=
  fun i => ⟨i % 256, 0, 0, 0, 0, 0, 0, 0, 0, 0, 0, 0, 0, 0, 0, 0⟩

/-- C1: for every supported key size (128/192/256 bits with 10/12/14 rounds),
decrypting with the schedule derived by `mbedtls_aesni_inverse_key` from the
forward schedule produced by `mbedtls_aesni_setkey_enc` inverts encryption on
every 16-byte plaintext. -/
theorem spec_roundtrip_all_sizes (bits nr : Nat) (key : List Nat) (ws : List Word) (p : Block)
    (hsize : (bits = 128 ∧ nr = 10) ∨ (bits = 192 ∧ nr = 12) ∨ (bits = 256 ∧ nr = 14))
    (hlen : key.length = bits / 8) (hkey : ∀ x ∈ key, x < 256) (hp : okB p)
    (hws : mbedtls_aesni_setkey_enc key bits = Except.ok ws) :
    mbedtls_aesni_crypt_ecb nr
      (fun i => (mbedtls_aesni_inverse_key (blockAt ws) nr).getD i zeroBlock)
      MBEDTLS_AES_DECRYPT
      (mbedtls_aesni_crypt_ecb nr (blockAt ws) MBEDTLS_AES_ENCRYPT p) = p := by
  rcases hsize with ⟨hb, hn⟩ | ⟨hb, hn⟩ | ⟨hb, hn⟩ <;> subst hb <;> subst hn
  · have h2 : Except.ok (aesni_setkey_enc_128 key) = Except.ok ws := hws
    obtain rfl : aesni_setkey_enc_128 key = ws := Except.ok.inj h2
    exact roundtripFun _ 10 (by omega) (okB_blockAt (okW_setkey128 hkey)) p hp
  · have h2 : Except.ok (aesni_setkey_enc_192 key) = Except.ok ws := hws
    obtain rfl : aesni_setkey_enc_192 key = ws := Except.ok.inj h2
    exact roundtripFun _ 12 (by omega) (okB_blockAt (okW_setkey192 hkey)) p hp
  · have h2 : Except.ok (aesni_setkey_enc_256 key) = Except.ok ws := hws
    obtain rfl : aesni_setkey_enc_256 key = ws := Except.ok.inj h2
    exact roundtripFun _ 14 (by omega) (okB_blockAt (okW_setkey256 hkey)) p hp

/-- Witness for C1: the roundtrip theorem applied to the FIPS-197 AES-128 key
and plaintext. -/
theorem spec_roundtrip_all_sizes_witness :
    mbedtls_aesni_crypt_ecb 10
      (fun i => (mbedtls_aesni_inverse_key (blockAt (aesni_setkey_enc_128 fipsKey128)) 10).getD
        i zeroBlock)
      MBEDTLS_AES_DECRYPT
      (mbedtls_aesni_crypt_ecb 10 (blockAt (aesni_setkey_enc_128 fipsKey128))
        MBEDTLS_AES_ENCRYPT fipsPlain) = fipsPlain :=
  spec_roundtrip_all_sizes 128 10 fipsKey128 (aesni_setkey_enc_128 fipsKey128) fipsPlain
    (Or.inl ⟨rfl, rfl⟩) (by decide) (by decide) (by decide) rfl

/-- C2: `mbedtls_aesni_crypt_ecb` computes exactly the algorithm of the spec:
initial whitening with round key 0, a fold of the fused round transform over
round keys 1 to `nr - 1` in order, and the final-round transform with round
key `nr`; for decryption the inverse transforms are applied with the supplied
schedule in the same positional order. -/
theorem spec_crypt_block_algorithm (nr : Nat) (rk : Nat → Block) (input : Block) (h : 2 ≤ nr) :
    mbedtls_aesni_crypt_ecb nr rk MBEDTLS_AES_ENCRYPT input
        = aesenclast (List.foldl aesenc (xorB input (rk 0)) ((List.range' 1 (nr - 1)).map rk))
            (rk nr) ∧
      mbedtls_aesni_crypt_ecb nr rk MBEDTLS_AES_DECRYPT input
        = aesdeclast (List.foldl aesdec (xorB input (rk 0)) ((List.range' 1 (nr - 1)).map rk))
            (rk nr) :=
  ⟨crypt_ecb_enc_eq nr rk input h, crypt_ecb_dec_eq nr rk input h⟩

/-- Witness for C2: the algorithm characterisation at `nr = 10` on the sample
schedule and the FIPS-197 plaintext. -/
theorem spec_crypt_block_algorithm_witness :
    mbedtls_aesni_crypt_ecb 10 fwdSample MBEDTLS_AES_ENCRYPT fipsPlain
        = aesenclast
            (List.foldl aesenc (xorB fipsPlain (fwdSample 0)) ((List.range' 1 9).map fwdSample))
            (fwdSample 10) ∧
      mbedtls_aesni_crypt_ecb 10 fwdSample MBEDTLS_AES_DECRYPT fipsPlain
        = aesdeclast
            (List.foldl aesdec (xorB fipsPlain (fwdSample 0)) ((List.range' 1 9).map fwdSample))
            (fwdSample 10) :=
  spec_crypt_block_algorithm 10 fwdSample fipsPlain (by omega)

/-- C3: the FIPS-197 AES-128 known-answer vector: encrypting
`00112233445566778899aabbccddeeff` under the schedule expanded from
`000102030405060708090a0b0c0d0e0f` yields `69c4e0d86a7b0430d8cdb78070b4c55a`. -/
theorem spec_fips197_aes128_vector :
    mbedtls_aesni_crypt_ecb 10 (blockAt (aesni_setkey_enc_128 fipsKey128))
      MBEDTLS_AES_ENCRYPT fipsPlain = fipsCipher := by
  decide

/-- C4: `mbedtls_aesni_setkey_enc` fails with
`MBEDTLS_ERR_AES_INVALID_KEY_LENGTH` for every unsupported bit size, producing
no schedule, and succeeds for 128/192/256 bits with the complete schedule
buffer (44, 54 and 64 words: at least `rounds + 1` round keys each). -/
theorem spec_setkey_invalid_bits (bits : Nat) (key : List Nat) :
    (bits ≠ 128 → bits ≠ 192 → bits ≠ 256 →
      mbedtls_aesni_setkey_enc key bits = Except.error MBEDTLS_ERR_AES_INVALID_KEY_LENGTH) ∧
    (mbedtls_aesni_setkey_enc key 128 = Except.ok (aesni_setkey_enc_128 key) ∧
      (aesni_setkey_enc_128 key).length = 4 * (10 + 1)) ∧
    (mbedtls_aesni_setkey_enc key 192 = Except.ok (aesni_setkey_enc_192 key) ∧
      (aesni_setkey_enc_192 key).length = 4 * (12 + 1) + 2) ∧
    (mbedtls_aesni_setkey_enc key 256 = Except.ok (aesni_setkey_enc_256 key) ∧
      (aesni_setkey_enc_256 key).length = 4 * (14 + 1) + 4) := by
  refine ⟨?_, ⟨rfl, ?_⟩, ⟨rfl, ?_⟩, ⟨rfl, ?_⟩⟩
  · intro h1 h2 h3
    unfold mbedtls_aesni_setkey_enc
    rw [if_neg h1, if_neg h2, if_neg h3]
  · rfl
  · rfl
  · rfl

/-- Witness for C4: key size 100 is rejected with the invalid-key-length
error. -/
theorem spec_setkey_invalid_bits_witness :
    mbedtls_aesni_setkey_enc [] 100 = Except.error MBEDTLS_ERR_AES_INVALID_KEY_LENGTH :=
  (spec_setkey_invalid_bits 100 []).1 (by decide) (by decide) (by decide)

/-- C5: the decryption schedule written by `mbedtls_aesni_inverse_key` has
`rounds + 1` entries; entry 0 is forward round key `rounds` unchanged, entry
`rounds` is forward round key 0 unchanged, and every interior entry `i` is
the InvMixColumns transform of forward round key `rounds - i`. -/
theorem spec_inverse_key_rule (fwd : Nat → Block) (nr : Nat)
    (h : nr = 10 ∨ nr = 12 ∨ nr = 14) :
    (mbedtls_aesni_inverse_key fwd nr).length = nr + 1 ∧
    (mbedtls_aesni_inverse_key fwd nr).getD 0 zeroBlock = fwd nr ∧
    (mbedtls_aesni_inverse_key fwd nr).getD nr zeroBlock = fwd 0 ∧
    ∀ i, 0 < i → i < nr →
      (mbedtls_aesni_inverse_key fwd nr).getD i zeroBlock = aesimc (fwd (nr - i)) := by
  have h1 : 1 ≤ nr := by rcases h with rfl | rfl | rfl <;> omega
  exact ⟨inverse_key_length fwd nr h1, inverse_key_getD_zero fwd nr zeroBlock,
    inverse_key_getD_last fwd nr zeroBlock h1,
    fun i hi1 hi2 => inverse_key_getD_mid fwd nr i zeroBlock hi1 hi2⟩

/-- Witness for C5: the characterisation applied at `rounds = 10` to the
sample schedule, evaluated at entries 0, 3 and 10. -/
theorem spec_inverse_key_rule_witness :
    (mbedtls_aesni_inverse_key fwdSample 10).getD 0 zeroBlock = fwdSample 10 ∧
    (mbedtls_aesni_inverse_key fwdSample 10).getD 3 zeroBlock = aesimc (fwdSample 7) ∧
    (mbedtls_aesni_inverse_key fwdSample 10).getD 10 zeroBlock = fwdSample 0 := by
  have h := spec_inverse_key_rule fwdSample 10 (Or.inl rfl)
  exact ⟨h.2.1, h.2.2.2 3 (by omega) (by omega), h.2.2.1⟩

/-- Round-constant sequence generated by repeated doubling in GF(2^8) under
the reduction polynomial `0x11B`, starting from 1. -/
def rconSeq (n : Nat) : Nat := xtime^[n] 1

/-- C8: the three key expansion variants consume the doubling-generated
round-constant sequence `0x01, 0x02, ..., 0x80, 0x1B, 0x36` one constant per
expansion step: the 128-bit variant consumes all ten, the 192-bit variant the
first eight, and the 256-bit variant the first seven. -/
theorem spec_rcon_consumption :
    rcon128 = (List.range 10).map rconSeq ∧
    rcon192 = ((List.range 10).map rconSeq).take 8 ∧
    rcon256 = ((List.range 10).map rconSeq).take 7 ∧
    (∀ key, aesni_setkey_enc_128 key = loop128 (keyBlock key 0) ((List.range 10).map rconSeq)) ∧
    (∀ key, aesni_setkey_enc_192 key =
      blockWords (keyBlock key 0) ++ [keyWord key 4, keyWord key 5] ++
        loop192 (keyBlock key 0) (keyWord key 4) (keyWord key 5)
          (((List.range 10).map rconSeq).take 8)) ∧
    (∀ key, aesni_setkey_enc_256 key =
      blockWords (keyBlock key 0) ++ blockWords (keyBlock key 1) ++
        loop256 (keyBlock key 0) (keyBlock key 1) (((List.range 10).map rconSeq).take 7)) := by
  have e : (List.range 10).map rconSeq = rcon128 := by decide
  refine ⟨e.symm, by rw [e]; decide, by rw [e]; decide, ?_, ?_, ?_⟩
  · intro key
    rw [e]
    rfl
  · intro key
    rw [e, show rcon128.take 8 = rcon192 from by decide]
    rfl
  · intro key
    rw [e, show rcon128.take 7 = rcon256 from by decide]
    rfl

/-- Once `done` is set and the CPUID word cached, further calls leave the
static state unchanged. -/
theorem runSupport_done (cpu : Nat) :
    ∀ calls, runSupport cpu calls ⟨true, cpu⟩ = ⟨true, cpu⟩
  | [] => rfl
  | _ :: ws => runSupport_done cpu ws

/-- The static state after any call from the initial state, and after any
call from the cached state, is the cached state. -/
theorem has_support_snd_init (cpu w : Nat) :
    (mbedtls_aesni_has_support cpu w initSupportState).2 = ⟨true, cpu⟩ := rfl

theorem has_support_snd_done (cpu w : Nat) :
    (mbedtls_aesni_has_support cpu w ⟨true, cpu⟩).2 = ⟨true, cpu⟩ := rfl

/-- Once `done` is set, no further call executes the CPUID query. -/
theorem supportQueries_done (cpu : Nat) :
    ∀ calls, supportQueries cpu calls ⟨true, cpu⟩ = 0
  | [] => rfl
  | w :: ws => by
    rw [supportQueries, has_support_snd_done cpu w, supportQueries_done cpu ws]
    rfl

/-- Every state reachable from the initial state is either the initial state
itself or the cached state holding the CPUID word. -/
theorem runSupport_init (cpu : Nat) (calls : List Nat) :
    runSupport cpu calls initSupportState = initSupportState ∨
      runSupport cpu calls initSupportState = ⟨true, cpu⟩ := by
  cases calls with
  | nil => exact Or.inl rfl
  | cons w ws => exact Or.inr (runSupport_done cpu ws)

/-- C9: after any sequence of `mbedtls_aesni_has_support` calls, a call with
mask `what` returns the fixed value determined by the hardware feature word,
and the CPUID query is executed at most once in the whole sequence. -/
theorem spec_has_support_stable (cpu what : Nat) (calls : List Nat) :
    (mbedtls_aesni_has_support cpu what (runSupport cpu calls initSupportState)).1
        = ((cpu &&& what) != 0) ∧
      supportQueries cpu calls initSupportState ≤ 1 := by
  constructor
  · rcases runSupport_init cpu calls with h | h <;> rw [h] <;> rfl
  · cases calls with
    | nil => exact Nat.zero_le _
    | cons w ws =>
      rw [supportQueries, has_support_snd_init cpu w, supportQueries_done cpu ws]
      decide

/-- C10: a call with the empty capability mask returns false from every
state, because the cached feature word ANDed with 0 is 0. -/
theorem spec_has_support_zero_mask (cpu : Nat) (st : SupportState) :
    (mbedtls_aesni_has_support cpu 0 st).1 = false := by
  unfold mbedtls_aesni_has_support
  simp [Nat.and_zero]

/-! ### Carry-less multiplication as GF(2) polynomial multiplication -/

open Polynomial in
/-- Interpretation of a natural number below `2 ^ 128` as a polynomial over
GF(2), bit `i` becoming the coefficient of `X ^ i`. -/
noncomputable def toPoly (x : Nat) : Polynomial (ZMod 2) :=
  ∑ i ∈ Finset.range 128, if x.testBit i then (X : Polynomial (ZMod 2)) ^ i else 0

theorem toPoly_coeff (x k : Nat) :
    (toPoly x).coeff k = if x.testBit k ∧ k < 128 then 1 else 0 := by
  unfold toPoly
  rw [Polynomial.finset_sum_coeff]
  by_cases hk : k < 128
  · rw [Finset.sum_eq_single_of_mem k (Finset.mem_range.mpr hk)]
    · cases hxk : x.testBit k <;> simp [Polynomial.coeff_X_pow, hk, hxk]
    · intro i _ hne
      cases hxi : x.testBit i <;> simp [Polynomial.coeff_X_pow, hxi, Ne.symm hne]
  · rw [Finset.sum_eq_zero, if_neg (by tauto)]
    intro i hi
    have hik : i ≠ k := by
      have := Finset.mem_range.mp hi
      omega
    cases hxi : x.testBit i <;> simp [Polynomial.coeff_X_pow, hxi, hik, Ne.symm hik]

theorem toPoly_eq_imp {x y : Nat} (hx : x < 2 ^ 128) (hy : y < 2 ^ 128)
    (h : toPoly x = toPoly y) : x = y := by
  apply Nat.eq_of_testBit_eq
  intro i
  by_cases hi : i < 128
  · have hc := congrArg (fun p => Polynomial.coeff p i) h
    simp only [toPoly_coeff, hi, and_true] at hc
    cases hbx : x.testBit i <;> cases hby : y.testBit i <;>
      simp [hbx, hby] at hc ⊢
  · have h1 : x.testBit i = false :=
      Nat.testBit_eq_false_of_lt (lt_of_lt_of_le hx (Nat.pow_le_pow_right (by omega) (by omega)))
    have h2 : y.testBit i = false :=
      Nat.testBit_eq_false_of_lt (lt_of_lt_of_le hy (Nat.pow_le_pow_right (by omega) (by omega)))
    rw [h1, h2]

theorem toPoly_xor (x y : Nat) : toPoly (x ^^^ y) = toPoly x + toPoly y := by
  ext k
  simp only [toPoly_coeff, Polynomial.coeff_add, Nat.testBit_xor]
  by_cases hk : k < 128 <;>
    cases hbx : x.testBit k <;> cases hby : y.testBit k <;>
      simp [hk, hbx, hby, CharTwo.add_self_eq_zero]

theorem toPoly_shiftLeft {x : Nat} (n : Nat) (hx : x < 2 ^ 64) (hn : n ≤ 64) :
    toPoly (x <<< n) = toPoly x * Polynomial.X ^ n := by
  ext k
  rw [Polynomial.coeff_mul_X_pow', toPoly_coeff, toPoly_coeff, Nat.testBit_shiftLeft]
  by_cases hnk : n ≤ k
  · simp only [hnk, decide_True, Bool.true_and, if_pos hnk]
    by_cases hk : k < 128
    · have : k - n < 128 := by omega
      simp [hk, this]
    · have hbit : x.testBit (k - n) = false :=
        Nat.testBit_eq_false_of_lt
          (lt_of_lt_of_le hx (Nat.pow_le_pow_right (by omega) (by omega)))
      simp [hk, hbit]
  · simp [hnk]

theorem toPoly_zero : toPoly 0 = 0 := by
  ext k
  simp [toPoly_coeff]

theorem clmulAux_lt {a : Nat} (b : Nat) (ha : a < 2 ^ 64) :
    ∀ n, n ≤ 64 → clmulAux a b n < 2 ^ 128
  | 0, _ => by
    unfold clmulAux
    positivity
  | n + 1, h => by
    rw [clmulAux]
    apply Nat.xor_lt_two_pow (clmulAux_lt b ha n (by omega))
    by_cases hb : b.testBit n
    · rw [if_pos hb, Nat.shiftLeft_eq]
      calc a * 2 ^ n < 2 ^ 64 * 2 ^ n :=
            Nat.mul_lt_mul_of_lt_of_le ha (le_refl _) (Nat.pos_pow_of_pos n (by omega))
        _ ≤ 2 ^ 64 * 2 ^ 64 :=
            Nat.mul_le_mul_left _ (Nat.pow_le_pow_right (by omega) (by omega))
        _ = 2 ^ 128 := by norm_num
    · rw [if_neg hb]
      positivity

theorem toPoly_clmulAux {a : Nat} (b : Nat) (ha : a < 2 ^ 64) :
    ∀ n, n ≤ 64 → toPoly (clmulAux a b n) =
      toPoly a * ∑ i ∈ Finset.range n, (if b.testBit i then Polynomial.X ^ i else 0)
  | 0, _ => by
    rw [clmulAux, toPoly_zero, Finset.range_zero, Finset.sum_empty, mul_zero]
  | n + 1, h => by
    rw [clmulAux, toPoly_xor, toPoly_clmulAux b ha n (by omega), Finset.sum_range_succ,
      mul_add]
    congr 1
    by_cases hb : b.testBit n
    · rw [if_pos hb, if_pos hb, toPoly_shiftLeft n ha (by omega)]
    · rw [if_neg hb, if_neg hb, toPoly_zero, mul_zero]

theorem toPoly_clmul {a b : Nat} (ha : a < 2 ^ 64) (hb : b < 2 ^ 64) :
    toPoly (clmul a b) = toPoly a * toPoly b := by
  rw [clmul, toPoly_clmulAux b ha 64 le_rfl]
  congr 1
  unfold toPoly
  apply Finset.sum_subset
  · exact Finset.range_subset.mpr (by omega)
  · intro i _ hi
    have hbit : b.testBit i = false :=
      Nat.testBit_eq_false_of_lt
        (lt_of_lt_of_le hb (Nat.pow_le_pow_right (by omega) (by simp at hi; omega)))
    simp [hbit]

theorem clmul_lt {a : Nat} (b : Nat) (ha : a < 2 ^ 64) : clmul a b < 2 ^ 128 :=
  clmulAux_lt b ha 64 le_rfl

/-- Carry-less multiplication is commutative on 64-bit operands: both
operand orders interpret to the same GF(2) polynomial product. -/
theorem clmul_comm {a b : Nat} (ha : a < 2 ^ 64) (hb : b < 2 ^ 64) :
    clmul a b = clmul b a := by
  apply toPoly_eq_imp (clmul_lt b ha) (clmul_lt a hb)
  rw [toPoly_clmul ha hb, toPoly_clmul hb ha, mul_comm]

theorem clmul_zero_left (y : Nat) : clmul 0 y = 0 := by
  have h : ∀ n, clmulAux 0 y n = 0 := by
    intro n
    induction n with
    | zero => rfl
    | succ n ih =>
      rw [clmulAux, ih, Nat.zero_shiftLeft]
      simp
  exact h 64

theorem mod64_lt (x : Nat) : x % 2 ^ 64 < 2 ^ 64 := Nat.mod_lt _ (by positivity)

theorem shiftRight64_lt {x : Nat} (hx : x < 2 ^ 128) : x >>> 64 < 2 ^ 64 := by
  rw [Nat.shiftRight_eq_div_pow]
  apply Nat.div_lt_of_lt_mul
  calc x < 2 ^ 128 := hx
    _ = 2 ^ 64 * 2 ^ 64 := by norm_num

theorem gcmCore_comm {x y : Nat} (hx : x < 2 ^ 128) (hy : y < 2 ^ 128) :
    gcmCore x y = gcmCore y x := by
  unfold gcmCore
  rw [clmul_comm (mod64_lt y) (mod64_lt x),
    clmul_comm (shiftRight64_lt hy) (shiftRight64_lt hx),
    clmul_comm (shiftRight64_lt hy) (mod64_lt x),
    clmul_comm (mod64_lt y) (shiftRight64_lt hx),
    Nat.xor_comm]

theorem gcmCore_zero_right (x : Nat) : gcmCore x 0 = 0 := by
  unfold gcmCore
  rw [Nat.zero_mod, Nat.zero_shiftRight, clmul_zero_left, clmul_zero_left]
  decide

theorem leNat_lt : ∀ l : List Nat, (∀ x ∈ l, x < 256) → leNat l < 256 ^ l.length
  | [], _ => by
    rw [leNat]
    positivity
  | b :: bs, h => by
    rw [leNat]
    have hb : b < 256 := h b (List.mem_cons_self _ _)
    have ih : leNat bs < 256 ^ bs.length :=
      leNat_lt bs fun x hx => h x (List.mem_cons_of_mem _ hx)
    calc b + 256 * leNat bs < 256 * (leNat bs + 1) := by omega
      _ ≤ 256 * 256 ^ bs.length := Nat.mul_le_mul_left _ (by omega)
      _ = 256 ^ (b :: bs).length := by
          rw [List.length_cons, pow_succ, Nat.mul_comm]

theorem leNat_reverse_lt {l : List Nat} (hlen : l.length = 16) (h : ∀ x ∈ l, x < 256) :
    leNat l.reverse < 2 ^ 128 := by
  have := leNat_lt l.reverse fun x hx => h x (List.mem_reverse.mp hx)
  rw [List.length_reverse, hlen] at this
  calc leNat l.reverse < 256 ^ 16 := this
    _ = 2 ^ 128 := by norm_num

/-- C6: `mbedtls_aesni_gcm_mult` is commutative on 16-byte operands and
absorbs the zero operand. -/
theorem spec_gcm_mult_comm_absorb :
    (∀ a b : List Nat, a.length = 16 → b.length = 16 →
      (∀ x ∈ a, x < 256) → (∀ x ∈ b, x < 256) →
      mbedtls_aesni_gcm_mult a b = mbedtls_aesni_gcm_mult b a) ∧
    (∀ a : List Nat, a.length = 16 → (∀ x ∈ a, x < 256) →
      mbedtls_aesni_gcm_mult a (List.replicate 16 0) = List.replicate 16 0) := by
  constructor
  · intro a b ha hb hab hbb
    unfold mbedtls_aesni_gcm_mult
    rw [gcmCore_comm (leNat_reverse_lt ha hab) (leNat_reverse_lt hb hbb)]
  · intro a ha hab
    unfold mbedtls_aesni_gcm_mult
    rw [show leNat (List.replicate 16 0).reverse = 0 from by decide, gcmCore_zero_right]
    decide

/-- The GHASH test operand `H = 66e94bd4ef8a2c3b884cfa59ca342b2e`. -/
def ghashH : List Nat :=
  [0x66, 0xe9, 0x4b, 0xd4, 0xef, 0x8a, 0x2c, 0x3b,
   0x88, 0x4c, 0xfa, 0x59, 0xca, 0x34, 0x2b, 0x2e]

/-- The GHASH test operand `X = 0388dace60b6a392f328c2b971b2fe78`. -/
def ghashX : List Nat :=
  [0x03, 0x88, 0xda, 0xce, 0x60, 0xb6, 0xa3, 0x92,
   0xf3, 0x28, 0xc2, 0xb9, 0x71, 0xb2, 0xfe, 0x78]

/-- Witness for C6: commutativity and zero absorption evaluated on the GHASH
test operands. -/
theorem spec_gcm_mult_comm_absorb_witness :
    mbedtls_aesni_gcm_mult ghashH ghashX = mbedtls_aesni_gcm_mult ghashX ghashH ∧
    mbedtls_aesni_gcm_mult ghashH (List.replicate 16 0) = List.replicate 16 0 :=
  ⟨spec_gcm_mult_comm_absorb.1 ghashH ghashX (by decide) (by decide) (by decide) (by decide),
   spec_gcm_mult_comm_absorb.2 ghashH (by decide) (by decide)⟩

/-- C7 counterexample: the multiplier result on the GHASH test operands,
read as a big-endian number, is not the 31-hex-digit value
`5e2ec746917062882c85b0685353deb` printed in the spec. -/
theorem spec_ghash_vector_counterexample :
    leNat (mbedtls_aesni_gcm_mult ghashH ghashX).reverse
      ≠ 0x5e2ec746917062882c85b0685353deb := by
  decide

/-- C7 amended: the multiplier result on the GHASH test operands is
`5e2ec746917062882c85b0685353deb7` (the spec value with its dropped final
hex digit restored), byte for byte and as a big-endian number. -/
theorem spec_ghash_vector_amended :
    mbedtls_aesni_gcm_mult ghashH ghashX =
      [0x5e, 0x2e, 0xc7, 0x46, 0x91, 0x70, 0x62, 0x88,
       0x2c, 0x85, 0xb0, 0x68, 0x53, 0x53, 0xde, 0xb7] ∧
    leNat (mbedtls_aesni_gcm_mult ghashH ghashX).reverse
      = 0x5e2ec746917062882c85b0685353deb7 := by
  constructor <;> decide

end Aesni
